import Mathlib

/-!
Verification of the telemetry accumulator (`accumulator/batch.go`) of the
apm-aws-lambda extension.

Shallow embedding conventions:
* Byte slices (`[]byte`) are `List Nat` (byte values).
* Go `time.Time` values are `Int` nanoseconds since the epoch; the zero
  `time.Time{}` is `0`.  `time.Duration` is `Int` nanoseconds.
* `float32`/`float64` arithmetic is embedded as exact rational arithmetic
  (`ℚ`); the Go conversion `int64(f)` (truncation toward zero) is
  `int64OfQ`.
* The external libraries used by the source (gjson / sjson field access,
  fastjson span marshalling, compress readers, crypto/rand span ids) are
  abstracted into a parameter structure `Ext`; the few semantic facts the
  theorems need about them are collected in `ExtLaws`.
* Fallible Go functions return `Except GoErr Unit × Batch`: the returned
  batch is the state after the call, also on the error path, mirroring the
  in-place mutations of the Go methods.
-/

namespace Apm

/-- Error values returned by the accumulator (`ErrMetadataUnavailable`,
`ErrBatchFull`, `ErrInvalidEncoding`, the `fmt.Errorf` lifecycle errors and
the unknown-request errors of `batch.go`). -/
inductive GoErr where
  | metadataUnavailable
  | batchFull
  | invalidEncoding
  | lifecycleNoRequest
  | noInvocationForRequest
  | unknownRequest
  | invalidPayload
deriving DecidableEq, Repr

/-- Modelled from the spec (§4.2, §6) and `extension/route_handlers.go`
(`AgentData`): the payload handed to `AddAgentData`, raw bytes plus the
`Content-Encoding` header value.  The accumulator's `APMData` declaration
itself is not under `src/`. -/
structure APMData where
  Data : List Nat
  ContentEncoding : String
deriving DecidableEq, Repr

/-- Modelled from the spec (§3 "Invocation"): the per-request record kept in
`Batch.invocations`.  The `Invocation` struct declaration is not under
`src/`; its fields are those the spec lists and `batch.go` uses.  Times are
nanoseconds since the epoch. -/
structure Invocation where
  RequestID : String := ""
  FunctionARN : String := ""
  DeadlineMs : Int := 0
  Timestamp : Int := 0
  TransactionID : String := ""
  AgentPayload : List Nat := []
  TransactionObserved : Bool := false
  Finalized : Bool := false
deriving DecidableEq, Repr

/-- The fields that `NewLambdaSpan` (accumulator) fills into `model.Span`
before marshalling.  `timestamp` is microseconds (the argument passed to
`time.UnixMicro`), `duration` milliseconds. -/
structure SpanRec where
  name : String
  typ : String
  subtype : String
  id : List Nat
  transactionId : String
  traceId : String
  parentId : String
  timestamp : Int
  duration : ℚ
  sampleRate : ℚ
deriving DecidableEq, Repr

/-- The external library operations `batch.go` calls: gjson field reads,
sjson field writes (all with fixed well-formed paths, on which sjson does
not fail), fastjson marshalling of a span, the content-encoding
decompressors, and the crypto/rand span-id source.  The batch operations
are parameterised over this structure. -/
structure Ext where
  inflate : String → List Nat → List Nat
  getTxId : List Nat → String
  getTxTraceId : List Nat → String
  getTxTimestamp : List Nat → Int
  getTxDuration : List Nat → ℚ
  getTxTag : List Nat → ℚ
  setTxTimestamp : List Nat → Int → List Nat
  setTxDuration : List Nat → ℚ → List Nat
  setTxInitTag : List Nat → ℚ → List Nat
  setTxResult : List Nat → String → List Nat
  setTxOutcome : List Nat → String → List Nat
  marshalSpan : SpanRec → List Nat
  randSpanId : String → List Nat

/-- The facts about the external library operations that the theorems use:
marshalled spans and sjson outputs are non-empty, and a gjson read after an
sjson write sees the written value (distinct paths do not interfere). -/
structure ExtLaws (e : Ext) : Prop where
  marshal_ne : ∀ s, e.marshalSpan s ≠ []
  outcome_ne : ∀ x o, e.setTxOutcome x o ≠ []
  ts_setTs : ∀ x v, e.getTxTimestamp (e.setTxTimestamp x v) = v
  ts_setDur : ∀ x v, e.getTxTimestamp (e.setTxDuration x v) = e.getTxTimestamp x
  ts_setTag : ∀ x v, e.getTxTimestamp (e.setTxInitTag x v) = e.getTxTimestamp x
  dur_setDur : ∀ x v, e.getTxDuration (e.setTxDuration x v) = v
  dur_setTag : ∀ x v, e.getTxDuration (e.setTxInitTag x v) = e.getTxDuration x
  dur_setOut : ∀ x o, e.getTxDuration (e.setTxOutcome x o) = e.getTxDuration x
  tag_setTag : ∀ x v, e.getTxTag (e.setTxInitTag x v) = v

/-- ASCII bytes of a string literal. -/
def bytesOf (s : String) : List Nat := s.data.map Char.toNat

/-- `transactionKey = []byte("transaction")`. -/
def txKeyBytes : List Nat := bytesOf "transaction"

/-- The scan of `isTransactionEvent`: the bytes after the first `"` or `'`
(byte 34 or 39); `none` when no quote occurs (the Go loop leaves `key`
nil). -/
def keyAfterQuote : List Nat → Option (List Nat)
  | [] => none
  | c :: rest => if c = 34 ∨ c = 39 then some rest else keyAfterQuote rest

/-- The byte-compare loop of `isTransactionEvent`: does `k` start with the
bytes `t`? -/
def matchBytes : List Nat → List Nat → Bool
  | [], _ => true
  | _ :: _, [] => false
  | t :: ts, k :: ks => t = k && matchBytes ts ks

/-- `isTransactionEvent` (`batch.go:404`): find the first quote byte, then
literally compare the following bytes against `transaction`. -/
def isTransactionEvent (body : List Nat) : Bool :=
  if ((keyAfterQuote body).getD []).length < txKeyBytes.length then false
  else matchBytes txKeyBytes ((keyAfterQuote body).getD [])

/-- `bytes.Cut(s, []byte("\n"))`: the segment before the first newline byte
and the remainder after it (`[]` when no newline occurs, as Go returns a
nil `after`). -/
def cutNl : List Nat → List Nat × List Nat
  | [] => ([], [])
  | c :: rest =>
    if c = 10 then ([], rest)
    else
      let p := cutNl rest
      (c :: p.1, p.2)

/-- When `bytes.Cut` leaves a non-empty remainder a separator was consumed,
so the remainder is strictly shorter than the input (termination measure of
the drain loop). -/
def cutNlSndLt : ∀ l : List Nat, (cutNl l).2 ≠ [] → (cutNl l).2.length < l.length := by
  intro l
  induction l with
  | nil => intro h; simp [cutNl] at h
  | cons c rest ih =>
    intro h
    by_cases hc : c = 10
    · simp [cutNl, hc]
    · simp [cutNl, hc] at h ⊢
      exact Nat.lt_succ_of_lt (ih h)

/-- Fuel-indexed form of `loopSegs` (the fuel is only a structural
termination device; `loopSegs` supplies enough of it and
`loopSegsF_irrel` shows the result does not depend on it). -/
def loopSegsF : Nat → List Nat → List (List Nat)
  | 0, _ => []
  | fuel + 1, l =>
    let p := cutNl l
    if p.2 = [] then [p.1] else p.1 :: loopSegsF fuel p.2

/-- The newline-delimited segments that the drain loop of `AddAgentData`
processes from a remainder: repeatedly `bytes.Cut`, stopping when the
remainder is empty (so a single trailing newline produces no extra empty
segment). -/
def loopSegs (l : List Nat) : List (List Nat) := loopSegsF (l.length + 1) l

/-- The batch state (`Batch` of `batch.go`), locks elided.  `invocations`
is an association list with unique keys standing for the Go map;
`currentlyExecutingRequestID` is abbreviated `currentReqID`. -/
structure Batch where
  metadataBytes : Nat
  buf : List Nat
  invocations : List (String × Invocation)
  count : Nat
  age : Int
  maxSize : Nat
  maxAge : Int
  currentReqID : String
  coldstartDurationMs : ℚ
deriving DecidableEq, Repr

/-- `NewBatch`: empty batch with the given limits and no cold-start
credit. -/
def NewBatch (maxSize : Nat) (maxAge : Int) : Batch :=
  { metadataBytes := 0, buf := [], invocations := [], count := 0, age := 0,
    maxSize := maxSize, maxAge := maxAge, currentReqID := "",
    coldstartDurationMs := -1 }

/-- Go map read `m[k]`. -/
def lookupInv : List (String × Invocation) → String → Option Invocation
  | [], _ => none
  | (k', v') :: rest, k => if k' = k then some v' else lookupInv rest k

/-- Go map write `m[k] = v` (keys stay unique). -/
def insertInv : List (String × Invocation) → String → Invocation → List (String × Invocation)
  | [], k, v => [(k, v)]
  | (k', v') :: rest, k, v =>
    if k' = k then (k, v) :: rest else (k', v') :: insertInv rest k v

/-- Go map `delete(m, k)`. -/
def eraseInv : List (String × Invocation) → String → List (String × Invocation)
  | [], _ => []
  | (k', v') :: rest, k => if k' = k then rest else (k', v') :: eraseInv rest k

/-- The cached metadata line: the first `metadataBytes` bytes of the
buffer. -/
def metaLine (b : Batch) : List Nat := b.buf.take b.metadataBytes

/-- ND-JSON event section: each appended event contributes `"\n" ++ event`
to the buffer. -/
def nlChunks (chunks : List (List Nat)) : List Nat := (chunks.map (fun c => 10 :: c)).flatten

/-- `int(float64(maxSize) * 0.9)`: the Go source computes the threshold in
float64 and truncates; for every representable size this equals
`⌊maxSize * 9 / 10⌋`, which is how it is embedded. -/
def shipThreshold (maxSize : Nat) : Nat := maxSize * 9 / 10

/-- Go `int64(q)` for a rational standing for a float: truncation toward
zero. -/
def int64OfQ (q : ℚ) : Int := if 0 ≤ q then q.floor else q.ceil

/-- `ShouldShip` (`batch.go:265`): count reaches 90% of the max size, or
the batch has an age and it exceeds `maxAge`.  Reads only; `now` is
`time.Now()`. -/
def ShouldShip (b : Batch) (now : Int) : Bool :=
  decide (b.count ≥ shipThreshold b.maxSize) ||
    (!decide (b.age = 0) && decide (now - b.age > b.maxAge))

/-- `Reset` (`batch.go:273`): zero the count and age and truncate the
buffer back to the metadata line. -/
def Reset (b : Batch) : Batch :=
  { b with count := 0, age := 0, buf := b.buf.take b.metadataBytes }

/-- The unconditional tail of `addData`: write `'\n'` then the data, start
the age on the first entry, bump the count. -/
def appendChunk (now : Int) (data : List Nat) (b : Batch) : Batch :=
  { b with buf := b.buf ++ 10 :: data,
           age := if b.count = 0 then now else b.age,
           count := b.count + 1 }

/-- `addData` for non-transaction data (the two synthesized span events):
empty data is a no-op, metadata must be present, otherwise append. -/
def addPlain (now : Int) (data : List Nat) (b : Batch) : Except GoErr Unit × Batch :=
  if data = [] then (.ok (), b)
  else if b.metadataBytes = 0 then (.error .metadataUnavailable, b)
  else (.ok (), appendChunk now data b)

/-- `NewLambdaSpan` (`batch.go:459`): fill a `model.Span` for the init or
handle span; the span id comes from crypto/rand. -/
def NewLambdaSpan (ext : Ext) (spanType : String) (parentTxID traceID : String)
    (timestamp : Int) (duration : ℚ) : SpanRec :=
  { name := if spanType = "handle" then "AWS Lambda Handle" else "AWS Lambda Initialize",
    typ := "awslambda",
    subtype := if spanType = "handle" then "handle" else "init",
    id := ext.randSpanId spanType,
    transactionId := parentTxID, traceId := traceID, parentId := parentTxID,
    timestamp := timestamp, duration := duration, sampleRate := 1 }

/-- `adjustTimestamp` (`batch.go:380`): read the transaction's timestamp
and duration, shift the timestamp back by the init duration (µs), extend
the duration, and tag the init duration; returns the rewritten bytes, the
new timestamp, the old timestamp and the old duration. -/
def adjustTimestamp (ext : Ext) (txData : List Nat) (initDurationMs : ℚ) :
    List Nat × Int × Int × ℚ :=
  let oldTimestamp := ext.getTxTimestamp txData
  let newTimestamp := oldTimestamp - int64OfQ (initDurationMs * 1000)
  let oldDuration := ext.getTxDuration txData
  let newDuration := oldDuration + initDurationMs
  let txn := ext.setTxTimestamp txData newTimestamp
  let txn := ext.setTxDuration txn newDuration
  let txn := ext.setTxInitTag txn initDurationMs
  (txn, newTimestamp, oldTimestamp, oldDuration)

/-- `modelInitPhase` (`batch.go:335`): consume the cold-start credit,
append the init span then the handle span (their `addData` errors are
discarded, as in the source) and return the adjusted transaction bytes. -/
def modelInitPhase (ext : Ext) (now : Int) (b : Batch) (txData : List Nat) :
    List Nat × Batch :=
  let initDurationMs := b.coldstartDurationMs
  let r := adjustTimestamp ext txData initDurationMs
  let b := { b with coldstartDurationMs := -1 }
  let txID := ext.getTxId txData
  let traceID := ext.getTxTraceId txData
  let initSpan := NewLambdaSpan ext "init" txID traceID r.2.1 initDurationMs
  let b := (addPlain now (ext.marshalSpan initSpan) b).2
  let handleSpan := NewLambdaSpan ext "handle" txID traceID r.2.2.1 r.2.2.2
  let b := (addPlain now (ext.marshalSpan handleSpan) b).2
  (r.1, b)

/-- `addData` (`batch.go:306`): empty data is a no-op; metadata must be
present; a transaction event arriving while a cold-start credit is pending
is routed through `modelInitPhase`; then `"\n" ++ data` is written and the
count (and, for the first entry, the age) updated. -/
def addData (ext : Ext) (now : Int) (data : List Nat) (isTx : Bool) (b : Batch) :
    Except GoErr Unit × Batch :=
  if data = [] then (.ok (), b)
  else if b.metadataBytes = 0 then (.error .metadataUnavailable, b)
  else
    let p := if isTx && decide (0 ≤ b.coldstartDurationMs)
             then modelInitPhase ext now b data
             else (data, b)
    (.ok (), appendChunk now p.1 p.2)

/-- Modelled from the spec (§4.2 step 5): `Invocation.NeedProxyTransaction`
— the agent announced a transaction id and the transaction has not been
observed.  The method itself is not under `src/`. -/
def NeedProxyTransaction (i : Invocation) : Bool :=
  decide (i.TransactionID ≠ "") && !i.TransactionObserved

/-- Modelled from the spec (§4.3 A): the status → `transaction.outcome`
mapping used by the proxy transaction. -/
def outcomeFromStatus (status : String) : String :=
  if status = "success" then "success" else "failure"

/-- Modelled from the spec (§4.3 A): a proxy transaction is synthesised
exactly when the announced transaction was never observed and an agent
payload is stored to derive it from. -/
def needsProxy (i : Invocation) : Bool :=
  !i.TransactionObserved && decide (i.AgentPayload ≠ [])

/-- Modelled from the spec (§4.3 A, §4.1 `finalize`):
`Invocation.CreateProxyTxn` — when the agent-reported transaction never
arrived and an agent payload exists, rewrite the stored payload with the
status result, the duration `(time − invocation.timestamp)` in
milliseconds, and the mapped outcome; otherwise there is nothing to append
(empty bytes).  The method itself is not under `src/`. -/
def CreateProxyTxn (ext : Ext) (i : Invocation) (status : String) (t : Int) : List Nat :=
  if needsProxy i then
    ext.setTxOutcome
      (ext.setTxDuration (ext.setTxResult i.AgentPayload status)
        (((t - i.Timestamp : Int) : ℚ) / 1000000))
      (outcomeFromStatus status)
  else []

/-- `RegisterInvocation` (`batch.go:98`): upsert the record (creating a
blank one if absent), refresh its identity fields and mark the request as
currently executing. -/
def RegisterInvocation (b : Batch) (reqID fARN : String) (deadlineMs : Int)
    (timestamp : Int) : Batch :=
  let i := (lookupInv b.invocations reqID).getD {}
  let i := { i with RequestID := reqID, FunctionARN := fARN,
                    DeadlineMs := deadlineMs, Timestamp := timestamp }
  { b with invocations := insertInv b.invocations reqID i, currentReqID := reqID }

/-- `OnAgentInit` (`batch.go:122`): reject a non-transaction payload, else
cache the transaction id and payload on the (possibly fresh) record and
mark the request as currently executing. -/
def OnAgentInit (b : Batch) (reqID txnID : String) (payload : List Nat) :
    Except GoErr Unit × Batch :=
  if !isTransactionEvent payload then (.error .invalidPayload, b)
  else
    let i := (lookupInv b.invocations reqID).getD {}
    let i := { i with TransactionID := txnID, AgentPayload := payload }
    (.ok (), { b with invocations := insertInv b.invocations reqID i,
                      currentReqID := reqID })

/-- The observation step inside the drain loop of `AddAgentData`
(`batch.go:175`): when the current invocation still needs a proxy and a
transaction event carries its announced id, mark the transaction
observed. -/
def observeTx (ext : Ext) (reqID : String) (data : List Nat) (b : Batch) : Batch :=
  match lookupInv b.invocations reqID with
  | none => b
  | some inc =>
    if NeedProxyTransaction inc && isTransactionEvent data then
      if decide (ext.getTxId data ≠ "") && decide (inc.TransactionID = ext.getTxId data) then
        { b with invocations :=
            insertInv b.invocations reqID { inc with TransactionObserved := true } }
      else b
    else b

/-- Fuel-indexed form of the drain loop (the fuel is only a structural
termination device; `drainLoop` supplies enough of it and
`drainLoopF_irrel` shows the result does not depend on it). -/
def drainLoopF (ext : Ext) (now : Int) (reqID : String) :
    Nat → Batch → List Nat → Except GoErr Unit × Batch
  | 0, b, _ => (.ok (), b)
  | fuel + 1, b, after =>
    let p := cutNl after
    let isTx := isTransactionEvent p.1
    let b1 := observeTx ext reqID p.1 b
    match addData ext now p.1 isTx b1 with
    | (.error e, b2) => (.error e, b2)
    | (.ok _, b2) =>
      if p.2 = [] then (.ok (), b2)
      else drainLoopF ext now reqID fuel b2 p.2

/-- The `for` loop of `AddAgentData` (`batch.go:172`): cut the next
segment, possibly mark the transaction observed, append via `addData`
(propagating its error), and stop when the remainder is empty. -/
def drainLoop (ext : Ext) (now : Int) (reqID : String) (b : Batch) (after : List Nat) :
    Except GoErr Unit × Batch :=
  drainLoopF ext now reqID (after.length + 1) b after

/-- Modelled from the spec (§4.2 step 1): `GetUncompressedBytes` — accept
identity, gzip and deflate encodings (decompressing through the library
readers abstracted as `inflate`), reject anything else.  The function
itself is not under `src/`. -/
def GetUncompressedBytes (ext : Ext) (data : List Nat) (enc : String) :
    Except GoErr (List Nat) :=
  if enc = "" then .ok data
  else if enc = "gzip" then .ok (ext.inflate "gzip" data)
  else if enc = "deflate" then .ok (ext.inflate "deflate" data)
  else .error .invalidEncoding

/-- `AddAgentData` (`batch.go:144`): empty payloads are accepted
unchanged; then decompress, refuse a full batch, require a registered
currently-executing invocation, adopt the first line as metadata if none
is cached, and drain the remaining newline-delimited events. -/
def AddAgentData (ext : Ext) (now : Int) (apmData : APMData) (b : Batch) :
    Except GoErr Unit × Batch :=
  if apmData.Data = [] then (.ok (), b)
  else
    match GetUncompressedBytes ext apmData.Data apmData.ContentEncoding with
    | .error e => (.error e, b)
    | .ok raw =>
      if b.count ≥ b.maxSize then (.error .batchFull, b)
      else if b.currentReqID = "" then (.error .lifecycleNoRequest, b)
      else
        match lookupInv b.invocations b.currentReqID with
        | none => (.error .noInvocationForRequest, b)
        | some _ =>
          let p := cutNl raw
          let b := if b.metadataBytes = 0
                   then { b with metadataBytes := p.1.length, buf := b.buf ++ p.1 }
                   else b
          drainLoop ext now b.currentReqID b p.2

/-- `AddLambdaData` (`batch.go:244`): refuse a full batch, otherwise
append the entry as a non-transaction event. -/
def AddLambdaData (ext : Ext) (now : Int) (d : List Nat) (b : Batch) :
    Except GoErr Unit × Batch :=
  if b.count ≥ b.maxSize then (.error .batchFull, b)
  else addData ext now d false b

/-- `finalizeInvocation` (`batch.go:289`): unknown request ids fail;
otherwise append the (possibly empty) proxy transaction and mark the
record finalized. -/
def finalizeInvocation (ext : Ext) (now : Int) (reqID status : String) (t : Int)
    (b : Batch) : Except GoErr Unit × Batch :=
  match lookupInv b.invocations reqID with
  | none => (.error .unknownRequest, b)
  | some inc =>
    let proxyTxn := CreateProxyTxn ext inc status t
    match addData ext now proxyTxn true b with
    | (.error e, b) => (.error e, b)
    | (.ok _, b) =>
      let inv := insertInv b.invocations reqID { inc with Finalized := true }
      (.ok (), { b with invocations := inv })

/-- `OnLambdaLogRuntimeDone` (`batch.go:194`). -/
def OnLambdaLogRuntimeDone (ext : Ext) (now : Int) (reqID status : String) (t : Int)
    (b : Batch) : Except GoErr Unit × Batch :=
  finalizeInvocation ext now reqID status t b

/-- `OnPlatformReport` (`batch.go:204`): return the enrichment tuple and
drop the record. -/
def OnPlatformReport (b : Batch) (reqID : String) :
    Except GoErr (String × Int × Int) × Batch :=
  match lookupInv b.invocations reqID with
  | none => (.error .noInvocationForRequest, b)
  | some inc =>
    (.ok (inc.FunctionARN, inc.DeadlineMs, inc.Timestamp),
     { b with invocations := eraseInv b.invocations reqID })

/-- `OnPlatformInitReport` (`batch.go:215`): store the cold-start
credit. -/
def OnPlatformInitReport (b : Batch) (initDurationMs : ℚ) : Batch :=
  { b with coldstartDurationMs := initDurationMs }

/-- The `range` body of `OnShutdown` (`batch.go:228`) over a snapshot of
the invocation map: finalize with the deadline converted from ms-epoch to
wall time (`time.Unix(0, deadlineMs·10⁶)`), abort on the first error,
delete the record (by its `RequestID` field, as the source does). -/
def shutdownLoop (ext : Ext) (now : Int) (status : String) :
    List (String × Invocation) → Batch → Except GoErr Unit × Batch
  | [], b => (.ok (), b)
  | (_, inc) :: rest, b =>
    let t := inc.DeadlineMs * 1000000
    match finalizeInvocation ext now inc.RequestID status t b with
    | (.error e, b) => (.error e, b)
    | (.ok _, b) =>
      shutdownLoop ext now status rest
        { b with invocations := eraseInv b.invocations inc.RequestID }

/-- `OnShutdown` (`batch.go:225`). -/
def OnShutdown (ext : Ext) (now : Int) (status : String) (b : Batch) :
    Except GoErr Unit × Batch :=
  shutdownLoop ext now status b.invocations b

/-- `ToAPMData` (`batch.go:281`). -/
def ToAPMData (b : Batch) : APMData := { Data := b.buf, ContentEncoding := "" }

/-- `Size` (`batch.go:90`): number of cached invocations. -/
def BatchSize (b : Batch) : Nat := b.invocations.length

/-- `Count` (`batch.go:254`). -/
def BatchCount (b : Batch) : Nat := b.count

/-- The invariant of claim C9: an observed transaction implies a non-empty
announced transaction id, for every cached invocation record. -/
def TxnObsInv (b : Batch) : Prop :=
  ∀ p ∈ b.invocations, p.2.TransactionObserved = true → p.2.TransactionID ≠ ""

/-- Well-formedness of the event buffer (claim C2): the metadata prefix
really has `metadataBytes` bytes and no newline, an empty metadata cache
means an empty buffer, and the rest of the buffer is a sequence of
`"\n" ++ event` chunks. -/
def BufWF (b : Batch) : Prop :=
  (metaLine b).length = b.metadataBytes ∧ 10 ∉ metaLine b ∧
    (b.metadataBytes = 0 → b.buf = []) ∧
    ∃ chunks, b.buf = metaLine b ++ nlChunks chunks

/-- One public operation of the batch, with arbitrary arguments. -/
inductive Step (ext : Ext) : Batch → Batch → Prop where
  | register (b : Batch) (reqID fARN : String) (deadlineMs timestamp : Int) :
      Step ext b (RegisterInvocation b reqID fARN deadlineMs timestamp)
  | agentInit (b : Batch) (reqID txnID : String) (payload : List Nat) :
      Step ext b (OnAgentInit b reqID txnID payload).2
  | agentData (b : Batch) (now : Int) (d : APMData) :
      Step ext b (AddAgentData ext now d b).2
  | lambdaData (b : Batch) (now : Int) (d : List Nat) :
      Step ext b (AddLambdaData ext now d b).2
  | runtimeDone (b : Batch) (now : Int) (reqID status : String) (t : Int) :
      Step ext b (OnLambdaLogRuntimeDone ext now reqID status t b).2
  | platformReport (b : Batch) (reqID : String) :
      Step ext b (OnPlatformReport b reqID).2
  | initReport (b : Batch) (initMs : ℚ) :
      Step ext b (OnPlatformInitReport b initMs)
  | shutdown (b : Batch) (now : Int) (status : String) :
      Step ext b (OnShutdown ext now status b).2
  | reset (b : Batch) : Step ext b (Reset b)

/-- States reachable from a new batch by any sequence of operations. -/
inductive Reach (ext : Ext) : Batch → Prop where
  | start (maxSize : Nat) (maxAge : Int) : Reach ext (NewBatch maxSize maxAge)
  | step {b b' : Batch} : Reach ext b → Step ext b b' → Reach ext b'

/-- Like `Step`, but `OnAgentInit` is only ever called with a non-empty
transaction id (the restriction of amended claim C9). -/
inductive StepR (ext : Ext) : Batch → Batch → Prop where
  | register (b : Batch) (reqID fARN : String) (deadlineMs timestamp : Int) :
      StepR ext b (RegisterInvocation b reqID fARN deadlineMs timestamp)
  | agentInit (b : Batch) (reqID txnID : String) (payload : List Nat)
      (hid : txnID ≠ "") :
      StepR ext b (OnAgentInit b reqID txnID payload).2
  | agentData (b : Batch) (now : Int) (d : APMData) :
      StepR ext b (AddAgentData ext now d b).2
  | lambdaData (b : Batch) (now : Int) (d : List Nat) :
      StepR ext b (AddLambdaData ext now d b).2
  | runtimeDone (b : Batch) (now : Int) (reqID status : String) (t : Int) :
      StepR ext b (OnLambdaLogRuntimeDone ext now reqID status t b).2
  | platformReport (b : Batch) (reqID : String) :
      StepR ext b (OnPlatformReport b reqID).2
  | initReport (b : Batch) (initMs : ℚ) :
      StepR ext b (OnPlatformInitReport b initMs)
  | shutdown (b : Batch) (now : Int) (status : String) :
      StepR ext b (OnShutdown ext now status b).2
  | reset (b : Batch) : StepR ext b (Reset b)

/-- Reachability under the restricted step relation. -/
inductive ReachR (ext : Ext) : Batch → Prop where
  | start (maxSize : Nat) (maxAge : Int) : ReachR ext (NewBatch maxSize maxAge)
  | step {b b' : Batch} : ReachR ext b → StepR ext b b' → ReachR ext b'

/-! ### A concrete instance of the external libraries

Used by witnesses and counterexamples.  Events are byte lists; a field
write prepends a tag byte (`≥ 200`) followed by one value element
(`300 + encoded value`); a field read scans for the first occurrence of
the field's tag.  Values are encoded into single naturals by pairing. -/

/-- Integers as naturals: even for `i ≥ 0`, odd for `i < 0`. -/
def natOfInt (i : Int) : Nat := if 0 ≤ i then 2 * i.toNat else 2 * (-i).toNat - 1

/-- Inverse of `natOfInt`. -/
def intOfNat (n : Nat) : Int :=
  if n % 2 = 0 then ((n / 2 : Nat) : Int) else -(((n + 1) / 2 : Nat) : Int)

/-- Rationals as naturals, by pairing numerator and denominator. -/
def natOfQ (q : ℚ) : Nat := Nat.pair (natOfInt q.num) q.den

/-- Inverse of `natOfQ`. -/
def qOfNat (n : Nat) : ℚ := (intOfNat n.unpair.1 : ℚ) / (n.unpair.2 : ℚ)

/-- Character lists as naturals: base-2²¹ digits (every code point is
below 2²¹), shifted by one so the empty list is `0`. -/
def natOfChars : List Char → Nat
  | [] => 0
  | c :: cs => 1 + c.toNat + 2097152 * natOfChars cs

/-- Strings as naturals. -/
def natOfStr (s : String) : Nat := natOfChars s.data

/-- Fuel-indexed inverse of `natOfChars` (the fuel is a structural
termination device; `strOfNat` supplies enough of it). -/
def charsOfNatF : Nat → Nat → List Char
  | _, 0 => []
  | 0, _ => []
  | fuel + 1, m + 1 => Char.ofNat (m % 2097152) :: charsOfNatF fuel (m / 2097152)

/-- Inverse of `natOfStr`. -/
def strOfNat (n : Nat) : String := String.mk (charsOfNatF n n)

/-- Scan for the first occurrence of a tag byte and return the element
after it. -/
def findTagVal (t : Nat) : List Nat → Option Nat
  | [] => none
  | a :: rest => if a = t then rest.head? else findTagVal t rest

/-- Toy field read: decode the element after the first occurrence of the
tag. -/
def toyGet (t : Nat) (x : List Nat) : Option Nat :=
  (findTagVal t x).map (fun n => n - 300)

/-- The concrete instance of the external libraries. -/
def toyExt : Ext :=
  { inflate := fun _ d => d,
    getTxId := fun x => ((toyGet 206 x).map strOfNat).getD "",
    getTxTraceId := fun x => ((toyGet 207 x).map strOfNat).getD "",
    getTxTimestamp := fun x => ((toyGet 201 x).map intOfNat).getD 0,
    getTxDuration := fun x => ((toyGet 202 x).map qOfNat).getD 0,
    getTxTag := fun x => ((toyGet 203 x).map qOfNat).getD 0,
    setTxTimestamp := fun x v => 201 :: (300 + natOfInt v) :: x,
    setTxDuration := fun x v => 202 :: (300 + natOfQ v) :: x,
    setTxInitTag := fun x v => 203 :: (300 + natOfQ v) :: x,
    setTxResult := fun x s => 204 :: (300 + natOfStr s) :: x,
    setTxOutcome := fun x s => 205 :: (300 + natOfStr s) :: x,
    marshalSpan := fun _ => [220],
    randSpanId := fun _ => [] }

/-! ### Concrete states for the counterexamples -/

/-- A transaction-kind payload for `OnAgentInit`. -/
def txInitPayload : List Nat := bytesOf "\x7b\x22transaction\x22:\x7b\x7d\x7d"

/-- A metadata line. -/
def metaLineBytes : List Nat := bytesOf "\x7b\x22metadata\x22:\x7b\x7d\x7d"

/-- A transaction event carrying `transaction.id = "t1"` in the toy
encoding (and recognisable by the byte-level discriminator). -/
def txEvtT1 : List Nat := bytesOf "\x7b\x22transaction\x22" ++ [206, 300 + natOfStr "t1"]

/-- C9 counterexample trace: register `A`, agent-init with id `t1`, drain
an agent payload whose transaction event observes `t1`, then agent-init
again with an empty id. -/
def c9bad : Batch :=
  (OnAgentInit
    ((AddAgentData toyExt 0 ⟨metaLineBytes ++ 10 :: txEvtT1, ""⟩
      ((OnAgentInit (RegisterInvocation (NewBatch 10 0) "A" "arn" 0 0)
        "A" "t1" txInitPayload).2)).2)
    "A" "" txInitPayload).2

/-- The corrupted record cached in `c9bad`: observed, but with an empty
transaction id. -/
def c9inc : Invocation :=
  { RequestID := "A", FunctionARN := "arn", DeadlineMs := 0, Timestamp := 0,
    TransactionID := "", AgentPayload := txInitPayload,
    TransactionObserved := true, Finalized := false }

/-- C6 counterexample state: one registered live invocation with an empty
agent payload and metadata already cached. -/
def c6batch : Batch :=
  (AddAgentData toyExt 0 ⟨metaLineBytes, ""⟩
    (RegisterInvocation (NewBatch 10 0) "A" "arn" 5 0)).2

/-- Witness state for C1: metadata cached and a pending cold-start
credit of 100 ms. -/
def c1batch : Batch :=
  { metadataBytes := 1, buf := [120], invocations := [], count := 0, age := 0,
    maxSize := 10, maxAge := 0, currentReqID := "",
    coldstartDurationMs := 100 }

/-- Witness state for C5: metadata cached, invocation `A` registered with
an agent-announced transaction (payload stored, not yet observed). -/
def c5batch : Batch :=
  (OnAgentInit
    ((AddAgentData toyExt 0 ⟨metaLineBytes, ""⟩
      (RegisterInvocation (NewBatch 10 0) "A" "arn" 5 0)).2)
    "A" "t1" txInitPayload).2

/-- The invocation record cached in `c5batch`. -/
def c5inc : Invocation :=
  { RequestID := "A", FunctionARN := "arn", DeadlineMs := 5, Timestamp := 0,
    TransactionID := "t1", AgentPayload := txInitPayload,
    TransactionObserved := false, Finalized := false }

/-- Witness state for C3: a batch with `maxSize = 1`, metadata cached and
a registered current invocation. -/
def c3batch : Batch :=
  { metadataBytes := 15, buf := metaLineBytes,
    invocations := [("A", { RequestID := "A" })], count := 0, age := 0,
    maxSize := 1, maxAge := 0, currentReqID := "A",
    coldstartDurationMs := -1 }

/-! ### Helper lemmas -/

theorem matchBytes_iff (t k : List Nat) :
    matchBytes t k = true ↔ k.take t.length = t := by
  induction t generalizing k with
  | nil => simp [matchBytes]
  | cons a ts ih =>
    cases k with
    | nil => simp [matchBytes]
    | cons c ks =>
      simp only [matchBytes, List.length_cons, List.take_succ_cons,
        Bool.and_eq_true, decide_eq_true_eq, List.cons.injEq, ih]
      constructor
      · rintro ⟨h1, h2⟩; exact ⟨h1.symm, h2⟩
      · rintro ⟨h1, h2⟩; exact ⟨h1.symm, h2⟩

theorem keyAfterQuote_eq_some (body rest : List Nat) :
    keyAfterQuote body = some rest ↔
      ∃ pre q, body = pre ++ q :: rest ∧ (q = 34 ∨ q = 39) ∧
        ∀ c ∈ pre, ¬(c = 34 ∨ c = 39) := by
  induction body generalizing rest with
  | nil =>
    simp only [keyAfterQuote]
    constructor
    · intro h; cases h
    · rintro ⟨pre, q, h, _, _⟩; cases pre <;> simp at h
  | cons a l ih =>
    by_cases ha : a = 34 ∨ a = 39
    · rw [keyAfterQuote, if_pos ha]
      constructor
      · intro h
        have hl : l = rest := by injection h
        exact ⟨[], a, by simp [hl], ha, by simp⟩
      · rintro ⟨pre, q, h, hq, hpre⟩
        cases pre with
        | nil =>
          simp only [List.nil_append, List.cons.injEq] at h
          rw [h.2]
        | cons p ps =>
          simp only [List.cons_append, List.cons.injEq] at h
          exact absurd (h.1 ▸ ha) (hpre p (by simp))
    · rw [keyAfterQuote, if_neg ha, ih]
      constructor
      · rintro ⟨pre, q, h, hq, hpre⟩
        refine ⟨a :: pre, q, by simp [h], hq, ?_⟩
        intro c hc
        rcases List.mem_cons.mp hc with rfl | hc
        · exact ha
        · exact hpre c hc
      · rintro ⟨pre, q, h, hq, hpre⟩
        cases pre with
        | nil =>
          simp only [List.nil_append, List.cons.injEq] at h
          exact absurd (h.1 ▸ hq) ha
        | cons p ps =>
          simp only [List.cons_append, List.cons.injEq] at h
          exact ⟨ps, q, h.2, hq, fun c hc => hpre c (by simp [hc])⟩

theorem keyAfterQuote_append (pre : List Nat) (q : Nat) (rest : List Nat)
    (hq : q = 34 ∨ q = 39) (hpre : ∀ c ∈ pre, ¬(c = 34 ∨ c = 39)) :
    keyAfterQuote (pre ++ q :: rest) = some rest := by
  induction pre with
  | nil => simp [keyAfterQuote, if_pos hq]
  | cons p ps ih =>
    rw [List.cons_append, keyAfterQuote, if_neg (hpre p (by simp))]
    exact ih (fun c hc => hpre c (by simp [hc]))

/-! ### The toy instance satisfies the library laws -/

theorem intOfNat_natOfInt (i : Int) : intOfNat (natOfInt i) = i := by
  unfold natOfInt intOfNat
  by_cases h : 0 ≤ i
  · rw [if_pos h]
    rw [if_pos (by omega)]
    omega
  · rw [if_neg h]
    rw [if_neg (by omega)]
    omega

theorem qOfNat_natOfQ (q : ℚ) : qOfNat (natOfQ q) = q := by
  unfold natOfQ qOfNat
  simp [Nat.unpair_pair, intOfNat_natOfInt, Rat.num_div_den]

theorem findTagVal_skip (t t' pay : Nat) (x : List Nat) (ht : t < 300)
    (hne : t' ≠ t) :
    findTagVal t (t' :: (300 + pay) :: x) = findTagVal t x := by
  simp only [findTagVal]
  rw [if_neg hne, if_neg (by omega : ¬(300 + pay = t))]

theorem findTagVal_hit (t pay : Nat) (x : List Nat) :
    findTagVal t (t :: (300 + pay) :: x) = some (300 + pay) := by
  simp [findTagVal]

theorem toyExt_laws : ExtLaws toyExt := by
  constructor
  · intro s
    simp [toyExt]
  · intro x o
    simp [toyExt]
  · intro x v
    simp [toyExt, toyGet, findTagVal_hit, intOfNat_natOfInt]
  · intro x v
    simp [toyExt, toyGet, findTagVal_skip 201 202 (natOfQ v) x (by omega) (by omega)]
  · intro x v
    simp [toyExt, toyGet, findTagVal_skip 201 203 (natOfQ v) x (by omega) (by omega)]
  · intro x v
    simp [toyExt, toyGet, findTagVal_hit, qOfNat_natOfQ]
  · intro x v
    simp [toyExt, toyGet, findTagVal_skip 202 203 (natOfQ v) x (by omega) (by omega)]
  · intro x o
    simp [toyExt, toyGet, findTagVal_skip 202 205 (natOfStr o) x (by omega) (by omega)]
  · intro x v
    simp [toyExt, toyGet, findTagVal_hit, qOfNat_natOfQ]

/-! ### Frame lemmas for the appending operations -/

theorem addPlain_frame (now : Int) (d : List Nat) (b : Batch) :
    (addPlain now d b).2.invocations = b.invocations ∧
    (addPlain now d b).2.metadataBytes = b.metadataBytes ∧
    (addPlain now d b).2.currentReqID = b.currentReqID ∧
    (addPlain now d b).2.coldstartDurationMs = b.coldstartDurationMs ∧
    (addPlain now d b).2.maxSize = b.maxSize ∧
    (addPlain now d b).2.maxAge = b.maxAge ∧
    ∃ t, (addPlain now d b).2.buf = b.buf ++ t := by
  unfold addPlain
  by_cases h1 : d = []
  · simp [h1]
  · rw [if_neg h1]
    by_cases h2 : b.metadataBytes = 0
    · simp [h2]
    · rw [if_neg h2]
      exact ⟨rfl, rfl, rfl, rfl, rfl, rfl, 10 :: d, rfl⟩

theorem modelInitPhase_frame (ext : Ext) (now : Int) (b : Batch) (d : List Nat) :
    (modelInitPhase ext now b d).2.invocations = b.invocations ∧
    (modelInitPhase ext now b d).2.metadataBytes = b.metadataBytes ∧
    (modelInitPhase ext now b d).2.currentReqID = b.currentReqID ∧
    (modelInitPhase ext now b d).2.maxSize = b.maxSize ∧
    (modelInitPhase ext now b d).2.maxAge = b.maxAge ∧
    ∃ t, (modelInitPhase ext now b d).2.buf = b.buf ++ t := by
  unfold modelInitPhase
  obtain ⟨h1, h2, h3, _, h5, h6, t1, ht1⟩ :=
    addPlain_frame now (ext.marshalSpan (NewLambdaSpan ext "init" (ext.getTxId d)
      (ext.getTxTraceId d) (adjustTimestamp ext d b.coldstartDurationMs).2.1
      b.coldstartDurationMs)) { b with coldstartDurationMs := -1 }
  obtain ⟨g1, g2, g3, _, g5, g6, t2, ht2⟩ :=
    addPlain_frame now (ext.marshalSpan (NewLambdaSpan ext "handle" (ext.getTxId d)
      (ext.getTxTraceId d) (adjustTimestamp ext d b.coldstartDurationMs).2.2.1
      (adjustTimestamp ext d b.coldstartDurationMs).2.2.2))
      (addPlain now (ext.marshalSpan (NewLambdaSpan ext "init" (ext.getTxId d)
        (ext.getTxTraceId d) (adjustTimestamp ext d b.coldstartDurationMs).2.1
        b.coldstartDurationMs)) { b with coldstartDurationMs := -1 }).2
  refine ⟨by rw [g1, h1], by rw [g2, h2], by rw [g3, h3], by rw [g5, h5],
    by rw [g6, h6], t1 ++ t2, ?_⟩
  rw [ht2, ht1, List.append_assoc]

theorem addData_frame (ext : Ext) (now : Int) (d : List Nat) (isTx : Bool) (b : Batch) :
    (addData ext now d isTx b).2.invocations = b.invocations ∧
    (addData ext now d isTx b).2.metadataBytes = b.metadataBytes ∧
    (addData ext now d isTx b).2.currentReqID = b.currentReqID ∧
    (addData ext now d isTx b).2.maxSize = b.maxSize ∧
    (addData ext now d isTx b).2.maxAge = b.maxAge ∧
    ∃ t, (addData ext now d isTx b).2.buf = b.buf ++ t := by
  unfold addData
  by_cases h1 : d = []
  · simp [h1]
  · rw [if_neg h1]
    by_cases h2 : b.metadataBytes = 0
    · simp [h2]
    · rw [if_neg h2]
      by_cases h3 : (isTx && decide (0 ≤ b.coldstartDurationMs)) = true
      · rw [if_pos h3]
        obtain ⟨m1, m2, m3, m4, m5, t, ht⟩ := modelInitPhase_frame ext now b d
        refine ⟨m1, m2, m3, m4, m5,
          t ++ 10 :: (modelInitPhase ext now b d).1, ?_⟩
        simp only [appendChunk, ht, List.append_assoc]
      · rw [if_neg h3]
        exact ⟨rfl, rfl, rfl, rfl, rfl, 10 :: d, rfl⟩

theorem observeTx_frame (ext : Ext) (reqID : String) (d : List Nat) (b : Batch) :
    (observeTx ext reqID d b).buf = b.buf ∧
    (observeTx ext reqID d b).metadataBytes = b.metadataBytes ∧
    (observeTx ext reqID d b).currentReqID = b.currentReqID ∧
    (observeTx ext reqID d b).coldstartDurationMs = b.coldstartDurationMs ∧
    (observeTx ext reqID d b).count = b.count ∧
    (observeTx ext reqID d b).maxSize = b.maxSize ∧
    (observeTx ext reqID d b).maxAge = b.maxAge ∧
    (observeTx ext reqID d b).age = b.age := by
  unfold observeTx
  cases h : lookupInv b.invocations reqID with
  | none => exact ⟨rfl, rfl, rfl, rfl, rfl, rfl, rfl, rfl⟩
  | some inc =>
    dsimp only
    split_ifs <;> exact ⟨rfl, rfl, rfl, rfl, rfl, rfl, rfl, rfl⟩

/-! ### Reduction lemmas for the append path -/

theorem addPlain_ok (now : Int) (d : List Nat) (b : Batch) (h1 : d ≠ [])
    (h2 : b.metadataBytes ≠ 0) :
    addPlain now d b = (.ok (), appendChunk now d b) := by
  unfold addPlain
  rw [if_neg h1, if_neg h2]

theorem addData_plain (ext : Ext) (now : Int) (d : List Nat) (isTx : Bool)
    (b : Batch) (h1 : d ≠ []) (h2 : b.metadataBytes ≠ 0)
    (h3 : isTx = false ∨ b.coldstartDurationMs < 0) :
    addData ext now d isTx b = (.ok (), appendChunk now d b) := by
  unfold addData
  rw [if_neg h1, if_neg h2]
  have hcond : (isTx && decide (0 ≤ b.coldstartDurationMs)) = false := by
    rcases h3 with h3 | h3
    · rw [h3]; rfl
    · simp [not_le.mpr h3]
  rw [hcond]
  rfl

theorem addData_coldstart (ext : Ext) (now : Int) (d : List Nat) (b : Batch)
    (h1 : d ≠ []) (h2 : b.metadataBytes ≠ 0) (h3 : 0 ≤ b.coldstartDurationMs) :
    addData ext now d true b =
      (.ok (), appendChunk now (modelInitPhase ext now b d).1
        (modelInitPhase ext now b d).2) := by
  unfold addData
  rw [if_neg h1, if_neg h2]
  have hcond : (true && decide (0 ≤ b.coldstartDurationMs)) = true := by simp [h3]
  rw [hcond]
  rfl

theorem modelInitPhase_eq (ext : Ext) (hl : ExtLaws ext) (now : Int) (b : Batch)
    (d : List Nat) (h2 : b.metadataBytes ≠ 0) :
    modelInitPhase ext now b d =
      ((adjustTimestamp ext d b.coldstartDurationMs).1,
        appendChunk now
          (ext.marshalSpan (NewLambdaSpan ext "handle" (ext.getTxId d)
            (ext.getTxTraceId d) (adjustTimestamp ext d b.coldstartDurationMs).2.2.1
            (adjustTimestamp ext d b.coldstartDurationMs).2.2.2))
          (appendChunk now
            (ext.marshalSpan (NewLambdaSpan ext "init" (ext.getTxId d)
              (ext.getTxTraceId d) (adjustTimestamp ext d b.coldstartDurationMs).2.1
              b.coldstartDurationMs))
            { b with coldstartDurationMs := -1 })) := by
  unfold modelInitPhase
  dsimp only
  have hA : ({ b with coldstartDurationMs := -1 } : Batch).metadataBytes ≠ 0 := h2
  rw [addPlain_ok now _ _ (hl.marshal_ne _) hA]
  have hB : (appendChunk now
      (ext.marshalSpan (NewLambdaSpan ext "init" (ext.getTxId d) (ext.getTxTraceId d)
        (adjustTimestamp ext d b.coldstartDurationMs).2.1 b.coldstartDurationMs))
      { b with coldstartDurationMs := -1 }).metadataBytes ≠ 0 := h2
  rw [addPlain_ok now _ _ (hl.marshal_ne _) hB]

theorem lookupInv_insert_self (l : List (String × Invocation)) (k : String)
    (v : Invocation) : lookupInv (insertInv l k v) k = some v := by
  induction l with
  | nil => simp [insertInv, lookupInv]
  | cons p rest ih =>
    by_cases h : p.1 = k
    · simp [insertInv, h, lookupInv]
    · simp only [insertInv]
      rw [if_neg h]
      simp only [lookupInv]
      rw [if_neg h]
      exact ih

theorem createProxyTxn_eq (ext : Ext) (inc : Invocation) (status : String) (t : Int)
    (hobs : inc.TransactionObserved = false) (hpay : inc.AgentPayload ≠ []) :
    CreateProxyTxn ext inc status t =
      ext.setTxOutcome
        (ext.setTxDuration (ext.setTxResult inc.AgentPayload status)
          (((t - inc.Timestamp : Int) : ℚ) / 1000000))
        (outcomeFromStatus status) := by
  unfold CreateProxyTxn
  rw [if_pos (by simp [needsProxy, hobs, hpay])]

/-! ### The drain loop: error characterisation and completeness -/

theorem addData_error (ext : Ext) (now : Int) (d : List Nat) (isTx : Bool)
    (b : Batch) (e : GoErr) (h : (addData ext now d isTx b).1 = .error e) :
    e = .metadataUnavailable := by
  unfold addData at h
  by_cases h1 : d = []
  · rw [if_pos h1] at h; cases h
  · rw [if_neg h1] at h
    by_cases h2 : b.metadataBytes = 0
    · rw [if_pos h2] at h
      exact (Except.error.injEq _ _ ▸ h).symm
    · rw [if_neg h2] at h; cases h

theorem drainLoopF_error (ext : Ext) (now : Int) (reqID : String) :
    ∀ (fuel : Nat) (b : Batch) (after : List Nat) (e : GoErr),
      (drainLoopF ext now reqID fuel b after).1 = .error e →
      e = .metadataUnavailable := by
  intro fuel
  induction fuel with
  | zero => intro b after e h; cases h
  | succ fuel ih =>
    intro b after e h
    simp only [drainLoopF] at h
    rcases hadd : addData ext now (cutNl after).1 (isTransactionEvent (cutNl after).1)
      (observeTx ext reqID (cutNl after).1 b) with ⟨r, b2⟩
    rw [hadd] at h
    cases r with
    | error e' =>
      dsimp only at h
      have he : e = e' := by injection h with h'; exact h'.symm
      exact he ▸ addData_error ext now _ _ _ e' (by rw [hadd])
    | ok u =>
      dsimp only at h
      by_cases h2 : (cutNl after).2 = []
      · rw [if_pos h2] at h; cases h
      · rw [if_neg h2] at h
        exact ih b2 (cutNl after).2 e h

theorem loopSegsF_irrel :
    ∀ (fuel fuel' : Nat) (l : List Nat), l.length < fuel → l.length < fuel' →
      loopSegsF fuel l = loopSegsF fuel' l := by
  intro fuel
  induction fuel with
  | zero => intro fuel' l h; omega
  | succ fuel ih =>
    intro fuel' l h h'
    cases fuel' with
    | zero => omega
    | succ f' =>
      simp only [loopSegsF]
      by_cases h2 : (cutNl l).2 = []
      · rw [if_pos h2, if_pos h2]
      · rw [if_neg h2, if_neg h2]
        have hlt := cutNlSndLt l h2
        rw [ih f' (cutNl l).2 (by omega) (by omega)]

theorem loopSegs_eq (l : List Nat) :
    loopSegs l =
      if (cutNl l).2 = [] then [(cutNl l).1]
      else (cutNl l).1 :: loopSegs (cutNl l).2 := by
  unfold loopSegs
  conv_lhs => rw [loopSegsF]
  by_cases h2 : (cutNl l).2 = []
  · rw [if_pos h2, if_pos h2]
  · rw [if_neg h2, if_neg h2]
    have hlt := cutNlSndLt l h2
    rw [loopSegsF_irrel l.length ((cutNl l).2.length + 1) (cutNl l).2 hlt (by omega)]

theorem nlChunks_cons (c : List Nat) (cs : List (List Nat)) :
    nlChunks (c :: cs) = (10 :: c) ++ nlChunks cs := rfl

theorem addData_seg (ext : Ext) (now : Int) (d : List Nat) (isTx : Bool) (b : Batch)
    (hm : b.metadataBytes ≠ 0) (hcs : b.coldstartDurationMs < 0) :
    addData ext now d isTx b = (.ok (), if d = [] then b else appendChunk now d b) := by
  by_cases h1 : d = []
  · rw [if_pos h1]
    unfold addData
    rw [if_pos h1]
  · rw [if_neg h1]
    exact addData_plain ext now d isTx b h1 hm (Or.inr hcs)

theorem drainLoopF_complete (ext : Ext) (now : Int) (reqID : String) :
    ∀ (fuel : Nat) (after : List Nat) (b : Batch), after.length < fuel →
      b.metadataBytes ≠ 0 → b.coldstartDurationMs < 0 →
      (drainLoopF ext now reqID fuel b after).1 = .ok () ∧
      (drainLoopF ext now reqID fuel b after).2.count =
        b.count + ((loopSegs after).filter (fun s => !s.isEmpty)).length ∧
      (drainLoopF ext now reqID fuel b after).2.buf =
        b.buf ++ nlChunks ((loopSegs after).filter (fun s => !s.isEmpty)) ∧
      (drainLoopF ext now reqID fuel b after).2.metadataBytes = b.metadataBytes ∧
      (drainLoopF ext now reqID fuel b after).2.coldstartDurationMs =
        b.coldstartDurationMs := by
  intro fuel
  induction fuel with
  | zero => intro after b h; omega
  | succ fuel ih =>
    intro after b hlen hm hcs
    obtain ⟨ob_buf, ob_meta, _, ob_cold, ob_count, _, _, _⟩ :=
      observeTx_frame ext reqID (cutNl after).1 b
    have hm1 : (observeTx ext reqID (cutNl after).1 b).metadataBytes ≠ 0 := by
      rw [ob_meta]; exact hm
    have hcs1 : (observeTx ext reqID (cutNl after).1 b).coldstartDurationMs < 0 := by
      rw [ob_cold]; exact hcs
    have hstep : drainLoopF ext now reqID (fuel + 1) b after =
        (if (cutNl after).2 = []
         then (.ok (), if (cutNl after).1 = []
              then observeTx ext reqID (cutNl after).1 b
              else appendChunk now (cutNl after).1 (observeTx ext reqID (cutNl after).1 b))
         else drainLoopF ext now reqID fuel
              (if (cutNl after).1 = []
               then observeTx ext reqID (cutNl after).1 b
               else appendChunk now (cutNl after).1 (observeTx ext reqID (cutNl after).1 b))
              (cutNl after).2) := by
      conv_lhs => rw [drainLoopF]
      rw [addData_seg ext now _ _ _ hm1 hcs1]
    by_cases h2 : (cutNl after).2 = []
    · rw [hstep, if_pos h2, loopSegs_eq, if_pos h2]
      by_cases hseg : (cutNl after).1 = []
      · rw [if_pos hseg]
        have hfil : (List.filter (fun s => !s.isEmpty) [(cutNl after).1]) = [] := by
          simp [List.filter_cons, List.isEmpty_eq_true, hseg]
        rw [hfil]
        simp only [nlChunks, List.map_nil, List.flatten_nil, List.length_nil,
          List.append_nil, Nat.add_zero]
        exact ⟨by trivial, ob_count, ob_buf, ob_meta, ob_cold⟩
      · rw [if_neg hseg]
        have hfil : (List.filter (fun s => !s.isEmpty) [(cutNl after).1]) =
            [(cutNl after).1] := by
          simp [List.filter_cons, List.isEmpty_eq_true, hseg]
        rw [hfil]
        refine ⟨rfl, ?_, ?_, ?_, ?_⟩
        · show (observeTx ext reqID (cutNl after).1 b).count + 1 = b.count + 1
          rw [ob_count]
        · show (observeTx ext reqID (cutNl after).1 b).buf ++
            10 :: (cutNl after).1 = b.buf ++ nlChunks [(cutNl after).1]
          rw [ob_buf]
          simp [nlChunks]
        · show (observeTx ext reqID (cutNl after).1 b).metadataBytes =
            b.metadataBytes
          exact ob_meta
        · show (observeTx ext reqID (cutNl after).1 b).coldstartDurationMs =
            b.coldstartDurationMs
          exact ob_cold
    · have hlt := cutNlSndLt after h2
      rw [hstep, if_neg h2]
      set b2 := (if (cutNl after).1 = []
        then observeTx ext reqID (cutNl after).1 b
        else appendChunk now (cutNl after).1 (observeTx ext reqID (cutNl after).1 b))
        with hb2
      have hm2 : b2.metadataBytes ≠ 0 := by
        rw [hb2]
        by_cases hseg : (cutNl after).1 = []
        · rw [if_pos hseg]; exact hm1
        · rw [if_neg hseg]; exact hm1
      have hcs2 : b2.coldstartDurationMs < 0 := by
        rw [hb2]
        by_cases hseg : (cutNl after).1 = []
        · rw [if_pos hseg]; exact hcs1
        · rw [if_neg hseg]; exact hcs1
      obtain ⟨ih1, ih2, ih3, ih4, ih5⟩ :=
        ih (cutNl after).2 b2 (by omega) hm2 hcs2
      have hsegs : loopSegs after = (cutNl after).1 :: loopSegs (cutNl after).2 := by
        rw [loopSegs_eq, if_neg h2]
      refine ⟨ih1, ?_, ?_, ?_, ?_⟩
      · rw [ih2, hsegs]
        by_cases hseg : (cutNl after).1 = []
        · rw [hb2, if_pos hseg]
          have hfilc : List.filter (fun s => !s.isEmpty)
              ((cutNl after).1 :: loopSegs (cutNl after).2) =
              List.filter (fun s => !s.isEmpty) (loopSegs (cutNl after).2) := by
            simp [List.filter_cons, List.isEmpty_eq_true, hseg]
          rw [hfilc, ob_count]
        · rw [hb2, if_neg hseg]
          have : List.filter (fun s => !s.isEmpty)
              ((cutNl after).1 :: loopSegs (cutNl after).2) =
              (cutNl after).1 :: List.filter (fun s => !s.isEmpty)
                (loopSegs (cutNl after).2) := by
            simp [List.filter_cons, List.isEmpty_eq_true, hseg]
          rw [this]
          show (appendChunk now (cutNl after).1
              (observeTx ext reqID (cutNl after).1 b)).count + _ = _
          simp only [appendChunk, ob_count, List.length_cons]
          omega
      · rw [ih3, hsegs]
        by_cases hseg : (cutNl after).1 = []
        · rw [hb2, if_pos hseg]
          have hfilc : List.filter (fun s => !s.isEmpty)
              ((cutNl after).1 :: loopSegs (cutNl after).2) =
              List.filter (fun s => !s.isEmpty) (loopSegs (cutNl after).2) := by
            simp [List.filter_cons, List.isEmpty_eq_true, hseg]
          rw [hfilc, ob_buf]
        · rw [hb2, if_neg hseg]
          have : List.filter (fun s => !s.isEmpty)
              ((cutNl after).1 :: loopSegs (cutNl after).2) =
              (cutNl after).1 :: List.filter (fun s => !s.isEmpty)
                (loopSegs (cutNl after).2) := by
            simp [List.filter_cons, List.isEmpty_eq_true, hseg]
          rw [this, nlChunks_cons]
          show (appendChunk now (cutNl after).1
              (observeTx ext reqID (cutNl after).1 b)).buf ++ _ = _
          simp only [appendChunk, ob_buf, List.append_assoc, List.cons_append]
      · rw [ih4, hb2]
        by_cases hseg : (cutNl after).1 = []
        · rw [if_pos hseg]; exact ob_meta
        · rw [if_neg hseg]; exact ob_meta
      · rw [ih5, hb2]
        by_cases hseg : (cutNl after).1 = []
        · rw [if_pos hseg]; exact ob_cold
        · rw [if_neg hseg]; exact ob_cold

/-! ### Association-list lemmas for the invocation registry -/

theorem lookupInv_mem (l : List (String × Invocation)) (k : String) (v : Invocation)
    (h : lookupInv l k = some v) : (k, v) ∈ l := by
  induction l with
  | nil => cases h
  | cons p rest ih =>
    rcases p with ⟨k', v'⟩
    by_cases hk : k' = k
    · simp only [lookupInv, if_pos hk] at h
      have hv : v' = v := by injection h
      subst hk hv
      exact List.mem_cons_self _ _
    · simp only [lookupInv, if_neg hk] at h
      exact List.mem_cons_of_mem _ (ih h)

theorem mem_insertInv (l : List (String × Invocation)) (k : String) (v : Invocation)
    (p : String × Invocation) (h : p ∈ insertInv l k v) : p = (k, v) ∨ p ∈ l := by
  induction l with
  | nil =>
    simp only [insertInv] at h
    rcases List.mem_singleton.mp h with rfl
    exact Or.inl rfl
  | cons q rest ih =>
    rcases q with ⟨k', v'⟩
    by_cases hk : k' = k
    · simp only [insertInv, if_pos hk] at h
      rcases List.mem_cons.mp h with rfl | hmem
      · exact Or.inl rfl
      · exact Or.inr (List.mem_cons_of_mem _ hmem)
    · simp only [insertInv, if_neg hk] at h
      rcases List.mem_cons.mp h with rfl | hmem
      · exact Or.inr (List.mem_cons_self _ _)
      · rcases ih hmem with h1 | h1
        · exact Or.inl h1
        · exact Or.inr (List.mem_cons_of_mem _ h1)

theorem mem_eraseInv (l : List (String × Invocation)) (k : String)
    (p : String × Invocation) (h : p ∈ eraseInv l k) : p ∈ l := by
  induction l with
  | nil => cases h
  | cons q rest ih =>
    rcases q with ⟨k', v'⟩
    by_cases hk : k' = k
    · simp only [eraseInv, if_pos hk] at h
      exact List.mem_cons_of_mem _ h
    · simp only [eraseInv, if_neg hk] at h
      rcases List.mem_cons.mp h with rfl | hmem
      · exact List.mem_cons_self _ _
      · exact List.mem_cons_of_mem _ (ih hmem)

theorem lookupInv_insert (l : List (String × Invocation)) (k k' : String)
    (v : Invocation) :
    lookupInv (insertInv l k v) k' =
      if k = k' then some v else lookupInv l k' := by
  induction l with
  | nil =>
    simp only [insertInv, lookupInv]
  | cons q rest ih =>
    rcases q with ⟨k0, v0⟩
    simp only [insertInv, lookupInv]
    by_cases hk : k0 = k
    · rw [if_pos hk]
      simp only [lookupInv]
      by_cases hk' : k = k'
      · rw [if_pos hk', if_pos hk']
      · rw [if_neg hk', if_neg hk',
          if_neg (show ¬ k0 = k' from fun h => hk' (hk.symm.trans h))]
    · rw [if_neg hk]
      simp only [lookupInv]
      rw [ih]
      by_cases hk' : k0 = k'
      · have hkk' : ¬ k = k' := fun h => hk (h ▸ hk')
        rw [if_pos hk', if_neg hkk', if_pos hk']
      · rw [if_neg hk', if_neg hk']

theorem lookupInv_erase_some (l : List (String × Invocation)) (j k : String)
    (v : Invocation) (h : lookupInv (eraseInv l j) k = some v) :
    ∃ v0, lookupInv l k = some v0 := by
  induction l with
  | nil => cases h
  | cons q rest ih =>
    rcases q with ⟨k0, v0⟩
    by_cases hj : k0 = j
    · simp only [eraseInv, if_pos hj] at h
      by_cases hk : k0 = k
      · exact ⟨v0, by simp [lookupInv, hk]⟩
      · refine ⟨v, ?_⟩
        simp only [lookupInv, if_neg hk]
        -- k ≠ j here since k0 = j and k0 ≠ k
        exact h
    · simp only [eraseInv, if_neg hj] at h
      simp only [lookupInv] at h ⊢
      by_cases hk : k0 = k
      · rw [if_pos hk] at h ⊢
        exact ⟨v, h⟩
      · rw [if_neg hk] at h ⊢
        exact ih h

/-! ### Shutdown: success characterisation and no-restore -/

theorem finalizeInvocation_err_invocations (ext : Ext) (now : Int)
    (reqID status : String) (t : Int) (b : Batch) (e : GoErr)
    (h : (finalizeInvocation ext now reqID status t b).1 = .error e) :
    (finalizeInvocation ext now reqID status t b).2.invocations = b.invocations := by
  unfold finalizeInvocation at h ⊢
  rcases hlook : lookupInv b.invocations reqID with _ | inc
  · rfl
  · rw [hlook] at h
    dsimp only at h ⊢
    rcases hadd : addData ext now (CreateProxyTxn ext inc status t) true b with ⟨r, b2⟩
    rw [hadd] at h
    cases r with
    | error e' =>
      show b2.invocations = b.invocations
      have hfr := (addData_frame ext now (CreateProxyTxn ext inc status t) true b).1
      rw [hadd] at hfr
      exact hfr
    | ok u => cases h

theorem shutdownLoop_no_restore (ext : Ext) (now : Int) (status : String) :
    ∀ (l : List (String × Invocation)) (b : Batch) (k : String) (i : Invocation),
      lookupInv (shutdownLoop ext now status l b).2.invocations k = some i →
      ∃ i0, lookupInv b.invocations k = some i0 := by
  intro l
  induction l with
  | nil => intro b k i h; exact ⟨i, h⟩
  | cons p rest ih =>
    intro b k i h
    simp only [shutdownLoop] at h
    rcases hf : finalizeInvocation ext now p.2.RequestID status
      (p.2.DeadlineMs * 1000000) b with ⟨r, b2⟩
    rw [hf] at h
    cases r with
    | error e =>
      dsimp only at h
      have hinv := finalizeInvocation_err_invocations ext now p.2.RequestID status
        (p.2.DeadlineMs * 1000000) b e (by rw [hf])
      rw [hf] at hinv
      dsimp only at hinv
      rw [hinv] at h
      exact ⟨i, h⟩
    | ok u =>
      dsimp only at h
      obtain ⟨i1, h1⟩ := ih _ k i h
      -- b2 came from a successful finalize: its registry is an insert over b's
      unfold finalizeInvocation at hf
      rcases hlook : lookupInv b.invocations p.2.RequestID with _ | inc
      · rw [hlook] at hf
        cases hf
      · rw [hlook] at hf
        dsimp only at hf
        rcases hadd : addData ext now (CreateProxyTxn ext inc status
          (p.2.DeadlineMs * 1000000)) true b with ⟨r2, b3⟩
        rw [hadd] at hf
        cases r2 with
        | error e2 => cases hf
        | ok u2 =>
          dsimp only at hf
          have hb2 : b2.invocations =
              insertInv b3.invocations p.2.RequestID
                { inc with Finalized := true } := by
            have := congrArg (fun x => x.2.invocations) hf
            exact this.symm
          have hb3 : b3.invocations = b.invocations := by
            have := (addData_frame ext now (CreateProxyTxn ext inc status
              (p.2.DeadlineMs * 1000000)) true b).1
            rw [hadd] at this
            exact this
          obtain ⟨i2, h2⟩ := lookupInv_erase_some b2.invocations p.2.RequestID k i1
            (by exact h1)
          rw [hb2, hb3] at h2
          rw [lookupInv_insert] at h2
          by_cases hkk : p.2.RequestID = k
          · rw [hkk] at hlook
            exact ⟨inc, hlook⟩
          · rw [if_neg hkk] at h2
            exact ⟨i2, h2⟩

theorem finalizeInvocation_ok (ext : Ext) (hl : ExtLaws ext) (now : Int)
    (status : String) (t : Int) (b : Batch) (inc : Invocation)
    (hlook : lookupInv b.invocations inc.RequestID = some inc)
    (hm : b.metadataBytes ≠ 0) (hcs : b.coldstartDurationMs < 0) :
    finalizeInvocation ext now inc.RequestID status t b =
      (.ok (), { (if needsProxy inc
                  then appendChunk now (CreateProxyTxn ext inc status t) b
                  else b) with
          invocations := insertInv b.invocations inc.RequestID
            { inc with Finalized := true } }) := by
  unfold finalizeInvocation
  rw [hlook]
  dsimp only
  by_cases hnp : needsProxy inc = true
  · have hne : CreateProxyTxn ext inc status t ≠ [] := by
      unfold CreateProxyTxn
      rw [if_pos hnp]
      exact hl.outcome_ne _ _
    rw [addData_plain ext now _ true b hne hm (Or.inr hcs)]
    rw [if_pos hnp]
    rfl
  · have hz : CreateProxyTxn ext inc status t = [] := by
      unfold CreateProxyTxn
      rw [if_neg hnp]
    rw [hz]
    rw [show addData ext now [] true b = (.ok (), b) from rfl]
    rw [if_neg hnp]

theorem shutdownLoop_ok (ext : Ext) (hl : ExtLaws ext) (now : Int) (status : String) :
    ∀ (l : List (String × Invocation)) (b : Batch),
      b.invocations = l →
      (∀ p ∈ l, p.2.RequestID = p.1) →
      b.metadataBytes ≠ 0 → b.coldstartDurationMs < 0 →
      (shutdownLoop ext now status l b).1 = .ok () ∧
      (shutdownLoop ext now status l b).2.invocations = [] ∧
      (shutdownLoop ext now status l b).2.buf =
        b.buf ++ nlChunks ((l.filter (fun p => needsProxy p.2)).map
          (fun p => CreateProxyTxn ext p.2 status (p.2.DeadlineMs * 1000000))) ∧
      (shutdownLoop ext now status l b).2.count =
        b.count + (l.filter (fun p => needsProxy p.2)).length := by
  intro l
  induction l with
  | nil =>
    intro b hinv _ _ _
    simp only [shutdownLoop, List.filter_nil, List.map_nil]
    refine ⟨by trivial, hinv, ?_, by trivial⟩
    show b.buf = b.buf ++ nlChunks []
    simp [nlChunks]
  | cons p rest ih =>
    intro b hinv hreq hm hcs
    rcases p with ⟨k, inc⟩
    have hk : inc.RequestID = k := hreq (k, inc) (List.mem_cons_self _ _)
    have hlook : lookupInv b.invocations inc.RequestID = some inc := by
      rw [hinv, hk]
      simp [lookupInv]
    have hfin := finalizeInvocation_ok ext hl now status
      (inc.DeadlineMs * 1000000) b inc hlook hm hcs
    have hir : eraseInv (insertInv b.invocations inc.RequestID
        { inc with Finalized := true }) inc.RequestID = rest := by
      rw [hinv, hk]
      simp [insertInv, eraseInv]
    simp only [shutdownLoop]
    rw [hfin]
    dsimp only
    rw [show (eraseInv (insertInv b.invocations inc.RequestID
      { inc with Finalized := true }) inc.RequestID) = rest from hir]
    by_cases hnp : needsProxy inc = true
    · rw [if_pos hnp] at hfin ⊢
      have hmid : ({ appendChunk now (CreateProxyTxn ext inc status
          (inc.DeadlineMs * 1000000)) b with invocations := rest } : Batch).invocations
          = rest := rfl
      obtain ⟨ihr1, ihr2, ihr3, ihr4⟩ := ih
        { appendChunk now (CreateProxyTxn ext inc status
          (inc.DeadlineMs * 1000000)) b with invocations := rest }
        hmid (fun q hq => hreq q (List.mem_cons_of_mem _ hq)) hm hcs
      refine ⟨ihr1, ihr2, ?_, ?_⟩
      · rw [ihr3]
        have hfc : List.filter (fun p => needsProxy p.2) ((k, inc) :: rest) =
            (k, inc) :: List.filter (fun p => needsProxy p.2) rest := by
          simp [List.filter_cons, hnp]
        rw [hfc, List.map_cons, nlChunks_cons]
        show (b.buf ++ 10 :: CreateProxyTxn ext inc status
            (inc.DeadlineMs * 1000000)) ++ _ = _
        rw [List.append_assoc]
      · rw [ihr4]
        have hfc : List.filter (fun p => needsProxy p.2) ((k, inc) :: rest) =
            (k, inc) :: List.filter (fun p => needsProxy p.2) rest := by
          simp [List.filter_cons, hnp]
        rw [hfc, List.length_cons]
        show b.count + 1 + _ = _
        omega
    · rw [if_neg hnp] at hfin ⊢
      have hmid : ({ b with invocations := rest } : Batch).invocations = rest := rfl
      obtain ⟨ihr1, ihr2, ihr3, ihr4⟩ := ih { b with invocations := rest }
        hmid (fun q hq => hreq q (List.mem_cons_of_mem _ hq)) hm hcs
      have hfc : List.filter (fun p => needsProxy p.2) ((k, inc) :: rest) =
          List.filter (fun p => needsProxy p.2) rest := by
        simp [List.filter_cons, hnp]
      exact ⟨ihr1, ihr2, by rw [ihr3, hfc], by rw [ihr4, hfc]⟩

/-! ### Claim theorems: the simple operations -/

/-- C4.  `ShouldShip` is exactly the disjunction: the count has reached
`⌊maxSize · 0.9⌋`, or the age is set and `now − age` exceeds `maxAge`.  It
is `false` when neither disjunct holds (the iff), and being a pure
function of the batch it does not modify it. -/
theorem shouldShip_iff (b : Batch) (now : Int) :
    ShouldShip b now = true ↔
      (b.count ≥ shipThreshold b.maxSize ∨ (b.age ≠ 0 ∧ now - b.age > b.maxAge)) := by
  simp [ShouldShip]

/-- C7.  The event-kind discriminator returns `true` iff the input has a
quote byte (`"` or `'`) and the bytes immediately after the first such
byte start with `transaction`; in particular it returns `false` (never an
error) when no quote occurs or when fewer than `|"transaction"|` bytes
follow the first quote. -/
theorem isTransactionEvent_iff (body : List Nat) :
    isTransactionEvent body = true ↔
      ∃ pre q rest, body = pre ++ q :: rest ∧ (q = 34 ∨ q = 39) ∧
        (∀ c ∈ pre, ¬(c = 34 ∨ c = 39)) ∧
        rest.take txKeyBytes.length = txKeyBytes := by
  constructor
  · intro h
    unfold isTransactionEvent at h
    cases hk : keyAfterQuote body with
    | none =>
      rw [hk] at h
      simp only [Option.getD_none, List.length_nil] at h
      rw [if_pos (by decide)] at h
      cases h
    | some key =>
      rw [hk] at h
      simp only [Option.getD_some] at h
      by_cases hlen : key.length < txKeyBytes.length
      · rw [if_pos hlen] at h; cases h
      · rw [if_neg hlen] at h
        obtain ⟨pre, q, hb, hq, hpre⟩ := (keyAfterQuote_eq_some body key).mp hk
        exact ⟨pre, q, key, hb, hq, hpre, (matchBytes_iff _ _).mp h⟩
  · rintro ⟨pre, q, rest, hbody, hq, hpre, htake⟩
    have hk : keyAfterQuote body = some rest :=
      hbody ▸ keyAfterQuote_append pre q rest hq hpre
    have hlen : txKeyBytes.length ≤ rest.length := by
      have hh := congrArg List.length htake
      simp only [List.length_take] at hh
      omega
    unfold isTransactionEvent
    rw [hk]
    simp only [Option.getD_some]
    rw [if_neg (by omega)]
    exact (matchBytes_iff _ _).mpr htake

/-- C8.  `Reset` zeroes the count and the age and truncates the buffer to
exactly the metadata line, which it preserves; it is idempotent. -/
theorem reset_spec (b : Batch) (h : b.metadataBytes ≤ b.buf.length) :
    (Reset b).count = 0 ∧ (Reset b).age = 0 ∧
      (Reset b).metadataBytes = b.metadataBytes ∧
      (Reset b).buf = metaLine b ∧
      (Reset b).buf.length = b.metadataBytes ∧
      Reset (Reset b) = Reset b := by
  refine ⟨rfl, rfl, rfl, rfl, ?_, ?_⟩
  · simp [Reset, List.length_take, Nat.min_eq_left h]
  · simp [Reset, List.take_take]

/-- Witness for C8 at a concrete batch. -/
theorem reset_spec_witness :
    let b : Batch := { metadataBytes := 2, buf := [7, 8, 9], invocations := [],
                       count := 5, age := 3, maxSize := 10, maxAge := 1,
                       currentReqID := "", coldstartDurationMs := -1 }
    (Reset b).count = 0 ∧ (Reset b).age = 0 ∧
      (Reset b).metadataBytes = b.metadataBytes ∧
      (Reset b).buf = metaLine b ∧
      (Reset b).buf.length = b.metadataBytes ∧
      Reset (Reset b) = Reset b :=
  reset_spec _ (by decide)

/-- C10.  `AddAgentData` with an empty payload returns success and leaves
the whole batch unchanged; the empty-payload test precedes the encoding,
capacity and lifecycle checks, so it wins even when those would fail. -/
theorem addAgentData_empty (ext : Ext) (now : Int) (enc : String) (b : Batch) :
    AddAgentData ext now { Data := [], ContentEncoding := enc } b = (.ok (), b) := by
  simp [AddAgentData]

/-- C1.  While a cold-start credit `c ≥ 0` is pending and metadata is
cached, appending a transaction event produces exactly three entries, in
order: an init span (name `AWS Lambda Initialize`, type `awslambda`,
subtype `init`, timestamp `old − int64(c·1000)`, duration `c`), a handle
span (subtype `handle`, timestamp and duration of the original
transaction), and the transaction rewritten with the shifted timestamp,
the extended duration and the `aws_lambda_init_duration` tag; the credit
is consumed (`−1`), so a subsequent transaction append is written
verbatim, with no synthetic spans and no rewriting. -/
theorem coldstart_trio (ext : Ext) (hl : ExtLaws ext) (now : Int) (b : Batch)
    (txData : List Nat) (hc : 0 ≤ b.coldstartDurationMs)
    (hm : b.metadataBytes ≠ 0) (hd : txData ≠ []) :
    (addData ext now txData true b).1 = .ok () ∧
    (addData ext now txData true b).2.count = b.count + 3 ∧
    (addData ext now txData true b).2.coldstartDurationMs = -1 ∧
    (addData ext now txData true b).2.buf =
      b.buf
        ++ (10 :: ext.marshalSpan (NewLambdaSpan ext "init" (ext.getTxId txData)
              (ext.getTxTraceId txData)
              (ext.getTxTimestamp txData - int64OfQ (b.coldstartDurationMs * 1000))
              b.coldstartDurationMs))
        ++ (10 :: ext.marshalSpan (NewLambdaSpan ext "handle" (ext.getTxId txData)
              (ext.getTxTraceId txData) (ext.getTxTimestamp txData)
              (ext.getTxDuration txData)))
        ++ (10 :: ext.setTxInitTag
              (ext.setTxDuration
                (ext.setTxTimestamp txData
                  (ext.getTxTimestamp txData - int64OfQ (b.coldstartDurationMs * 1000)))
                (ext.getTxDuration txData + b.coldstartDurationMs))
              b.coldstartDurationMs) ∧
    (∀ p tr ts du, NewLambdaSpan ext "init" p tr ts du =
      { name := "AWS Lambda Initialize", typ := "awslambda", subtype := "init",
        id := ext.randSpanId "init", transactionId := p, traceId := tr,
        parentId := p, timestamp := ts, duration := du, sampleRate := 1 }) ∧
    (∀ p tr ts du, NewLambdaSpan ext "handle" p tr ts du =
      { name := "AWS Lambda Handle", typ := "awslambda", subtype := "handle",
        id := ext.randSpanId "handle", transactionId := p, traceId := tr,
        parentId := p, timestamp := ts, duration := du, sampleRate := 1 }) ∧
    ext.getTxTimestamp
        (ext.setTxInitTag
          (ext.setTxDuration
            (ext.setTxTimestamp txData
              (ext.getTxTimestamp txData - int64OfQ (b.coldstartDurationMs * 1000)))
            (ext.getTxDuration txData + b.coldstartDurationMs))
          b.coldstartDurationMs) =
      ext.getTxTimestamp txData - int64OfQ (b.coldstartDurationMs * 1000) ∧
    ext.getTxDuration
        (ext.setTxInitTag
          (ext.setTxDuration
            (ext.setTxTimestamp txData
              (ext.getTxTimestamp txData - int64OfQ (b.coldstartDurationMs * 1000)))
            (ext.getTxDuration txData + b.coldstartDurationMs))
          b.coldstartDurationMs) =
      ext.getTxDuration txData + b.coldstartDurationMs ∧
    ext.getTxTag
        (ext.setTxInitTag
          (ext.setTxDuration
            (ext.setTxTimestamp txData
              (ext.getTxTimestamp txData - int64OfQ (b.coldstartDurationMs * 1000)))
            (ext.getTxDuration txData + b.coldstartDurationMs))
          b.coldstartDurationMs) =
      b.coldstartDurationMs ∧
    (∀ now2 tx2, tx2 ≠ [] →
      addData ext now2 tx2 true (addData ext now txData true b).2 =
        (.ok (), appendChunk now2 tx2 (addData ext now txData true b).2)) := by
  have hmain := addData_coldstart ext now txData b hd hm hc
  have hmi := modelInitPhase_eq ext hl now b txData hm
  have hcs2 : (addData ext now txData true b).2.coldstartDurationMs = -1 := by
    rw [hmain, hmi]
    rfl
  have hm2 : (addData ext now txData true b).2.metadataBytes ≠ 0 := by
    rw [(addData_frame ext now txData true b).2.1]
    exact hm
  refine ⟨by rw [hmain], ?_, hcs2, ?_, fun p tr ts du => rfl, fun p tr ts du => rfl,
    ?_, ?_, ?_, ?_⟩
  · rw [hmain, hmi]
    rfl
  · rw [hmain, hmi]
    rfl
  · rw [hl.ts_setTag, hl.ts_setDur, hl.ts_setTs]
  · rw [hl.dur_setTag, hl.dur_setDur]
  · rw [hl.tag_setTag]
  · intro now2 tx2 htx2
    refine addData_plain ext now2 tx2 true _ htx2 hm2 (Or.inr ?_)
    rw [hcs2]
    norm_num

/-- Witness for C1: a 100 ms credit at a concrete batch yields three new
entries and consumes the credit. -/
theorem coldstart_trio_witness :
    (addData toyExt 0 txEvtT1 true c1batch).1 = .ok () ∧
    (addData toyExt 0 txEvtT1 true c1batch).2.count = c1batch.count + 3 ∧
    (addData toyExt 0 txEvtT1 true c1batch).2.coldstartDurationMs = -1 :=
  have H := coldstart_trio toyExt toyExt_laws 0 c1batch txEvtT1
    (by decide) (by decide) (by decide)
  ⟨H.1, H.2.1, H.2.2.1⟩

/-- C5.  On `platform.runtimeDone` for a registered invocation whose agent
payload is stored but whose transaction was never observed (and no pending
cold-start credit), exactly one proxy transaction derived from the stored
payload is appended — duration `(time − invocation.timestamp)` in
milliseconds, result `status` and the mapped outcome — and the record is
marked finalized; an unregistered request id fails with the
unknown-request error and leaves the batch unchanged. -/
theorem runtimeDone_proxy (ext : Ext) (hl : ExtLaws ext) (now t : Int)
    (b : Batch) (reqID status : String) :
    (∀ inc, lookupInv b.invocations reqID = some inc →
      inc.TransactionObserved = false → inc.AgentPayload ≠ [] →
      b.metadataBytes ≠ 0 → b.coldstartDurationMs < 0 →
      (OnLambdaLogRuntimeDone ext now reqID status t b).1 = .ok () ∧
      (OnLambdaLogRuntimeDone ext now reqID status t b).2.buf =
        b.buf ++ 10 :: CreateProxyTxn ext inc status t ∧
      (OnLambdaLogRuntimeDone ext now reqID status t b).2.count = b.count + 1 ∧
      lookupInv (OnLambdaLogRuntimeDone ext now reqID status t b).2.invocations
          reqID = some { inc with Finalized := true } ∧
      CreateProxyTxn ext inc status t =
        ext.setTxOutcome
          (ext.setTxDuration (ext.setTxResult inc.AgentPayload status)
            (((t - inc.Timestamp : Int) : ℚ) / 1000000))
          (outcomeFromStatus status) ∧
      ext.getTxDuration (CreateProxyTxn ext inc status t) =
        ((t - inc.Timestamp : Int) : ℚ) / 1000000) ∧
    (lookupInv b.invocations reqID = none →
      OnLambdaLogRuntimeDone ext now reqID status t b = (.error .unknownRequest, b)) := by
  constructor
  · intro inc hlook hobs hpay hm hcs
    have hpe := createProxyTxn_eq ext inc status t hobs hpay
    have hne : CreateProxyTxn ext inc status t ≠ [] := by
      rw [hpe]
      exact hl.outcome_ne _ _
    unfold OnLambdaLogRuntimeDone finalizeInvocation
    rw [hlook]
    dsimp only
    rw [addData_plain ext now _ true b hne hm (Or.inr hcs)]
    dsimp only
    refine ⟨rfl, rfl, rfl, ?_, hpe, ?_⟩
    · exact lookupInv_insert_self _ _ _
    · rw [hpe, hl.dur_setOut, hl.dur_setDur]
  · intro hlook
    unfold OnLambdaLogRuntimeDone finalizeInvocation
    rw [hlook]

/-! ### Buffer well-formedness: preservation lemmas -/

theorem cutNl_fst_no10 : ∀ l : List Nat, 10 ∉ (cutNl l).1 := by
  intro l
  induction l with
  | nil => simp [cutNl]
  | cons c rest ih =>
    by_cases hc : c = 10
    · simp [cutNl, hc]
    · simp only [cutNl, if_neg hc]
      intro hmem
      rcases List.mem_cons.mp hmem with rfl | hmem
      · exact hc rfl
      · exact ih hmem

theorem cutNl_of_append (m rest : List Nat) (h : 10 ∉ m) :
    cutNl (m ++ 10 :: rest) = (m, rest) := by
  induction m with
  | nil => simp [cutNl]
  | cons c cs ih =>
    have hc : c ≠ 10 := fun hc => h (hc ▸ List.mem_cons_self c cs)
    have hcs : 10 ∉ cs := fun hm => h (List.mem_cons_of_mem c hm)
    show cutNl (c :: (cs ++ 10 :: rest)) = (c :: cs, rest)
    simp only [cutNl, if_neg hc]
    rw [ih hcs]

theorem bufWF_congr (b b' : Batch) (hbuf : b'.buf = b.buf)
    (hm : b'.metadataBytes = b.metadataBytes) (h : BufWF b) : BufWF b' := by
  obtain ⟨h1, h2, h3, chunks, h4⟩ := h
  exact ⟨by rw [metaLine, hbuf, hm]; exact h1,
    by rw [metaLine, hbuf, hm]; exact h2,
    by rw [hm, hbuf]; exact h3,
    chunks, by rw [metaLine, hbuf, hm]; exact h4⟩

theorem bufWF_le (b : Batch) (h : BufWF b) : b.metadataBytes ≤ b.buf.length := by
  obtain ⟨h1, _, _, _⟩ := h
  rw [metaLine, List.length_take] at h1
  omega

theorem metaLine_append (b : Batch) (t : List Nat) (h : BufWF b) :
    (b.buf ++ t).take b.metadataBytes = metaLine b := by
  rw [List.take_append_of_le_length (bufWF_le b h)]
  rfl

theorem appendChunk_wf (now : Int) (d : List Nat) (b : Batch)
    (hm : b.metadataBytes ≠ 0) (h : BufWF b) :
    BufWF (appendChunk now d b) ∧ metaLine (appendChunk now d b) = metaLine b := by
  obtain ⟨h1, h2, h3, chunks, h4⟩ := h
  have hml : metaLine (appendChunk now d b) = metaLine b := by
    rw [metaLine]
    show (b.buf ++ 10 :: d).take b.metadataBytes = metaLine b
    exact metaLine_append b _ ⟨h1, h2, h3, chunks, h4⟩
  refine ⟨⟨by rw [hml]; exact h1, by rw [hml]; exact h2,
    fun h0 => absurd h0 hm, chunks ++ [d], ?_⟩, hml⟩
  show b.buf ++ 10 :: d = metaLine (appendChunk now d b) ++ nlChunks (chunks ++ [d])
  rw [hml, h4]
  simp [nlChunks, List.map_append, List.flatten_append, List.append_assoc]

theorem addPlain_wf (now : Int) (d : List Nat) (b : Batch) (h : BufWF b) :
    BufWF (addPlain now d b).2 ∧
    (addPlain now d b).2.metadataBytes = b.metadataBytes ∧
    metaLine (addPlain now d b).2 = metaLine b := by
  unfold addPlain
  by_cases h1 : d = []
  · rw [if_pos h1]
    exact ⟨h, rfl, rfl⟩
  · rw [if_neg h1]
    by_cases h2 : b.metadataBytes = 0
    · rw [if_pos h2]
      exact ⟨h, rfl, rfl⟩
    · rw [if_neg h2]
      obtain ⟨hwf, hml⟩ := appendChunk_wf now d b h2 h
      exact ⟨hwf, rfl, hml⟩

theorem modelInitPhase_wf (ext : Ext) (now : Int) (b : Batch) (d : List Nat)
    (h : BufWF b) :
    BufWF (modelInitPhase ext now b d).2 ∧
    (modelInitPhase ext now b d).2.metadataBytes = b.metadataBytes ∧
    metaLine (modelInitPhase ext now b d).2 = metaLine b := by
  unfold modelInitPhase
  dsimp only
  have hb1 : BufWF { b with coldstartDurationMs := -1 } :=
    bufWF_congr _ b rfl rfl h
  obtain ⟨hw1, hm1, hl1⟩ := addPlain_wf now
    (ext.marshalSpan (NewLambdaSpan ext "init" (ext.getTxId d) (ext.getTxTraceId d)
      (adjustTimestamp ext d b.coldstartDurationMs).2.1 b.coldstartDurationMs))
    { b with coldstartDurationMs := -1 } hb1
  obtain ⟨hw2, hm2, hl2⟩ := addPlain_wf now
    (ext.marshalSpan (NewLambdaSpan ext "handle" (ext.getTxId d) (ext.getTxTraceId d)
      (adjustTimestamp ext d b.coldstartDurationMs).2.2.1
      (adjustTimestamp ext d b.coldstartDurationMs).2.2.2))
    _ hw1
  refine ⟨hw2, ?_, ?_⟩
  · rw [hm2, hm1]
  · rw [hl2, hl1]
    rfl

theorem addData_wf (ext : Ext) (now : Int) (d : List Nat) (isTx : Bool)
    (b : Batch) (h : BufWF b) :
    BufWF (addData ext now d isTx b).2 ∧
    (addData ext now d isTx b).2.metadataBytes = b.metadataBytes ∧
    metaLine (addData ext now d isTx b).2 = metaLine b := by
  unfold addData
  by_cases h1 : d = []
  · rw [if_pos h1]
    exact ⟨h, rfl, rfl⟩
  · rw [if_neg h1]
    by_cases h2 : b.metadataBytes = 0
    · rw [if_pos h2]
      exact ⟨h, rfl, rfl⟩
    · rw [if_neg h2]
      by_cases h3 : (isTx && decide (0 ≤ b.coldstartDurationMs)) = true
      · rw [if_pos h3]
        dsimp only
        obtain ⟨hw1, hm1, hl1⟩ := modelInitPhase_wf ext now b d h
        have hm1' : (modelInitPhase ext now b d).2.metadataBytes ≠ 0 := by
          rw [hm1]; exact h2
        obtain ⟨hw2, hl2⟩ := appendChunk_wf now (modelInitPhase ext now b d).1
          (modelInitPhase ext now b d).2 hm1' hw1
        exact ⟨hw2, by
          show (appendChunk now (modelInitPhase ext now b d).1
            (modelInitPhase ext now b d).2).metadataBytes = b.metadataBytes
          rw [show (appendChunk now (modelInitPhase ext now b d).1
            (modelInitPhase ext now b d).2).metadataBytes =
            (modelInitPhase ext now b d).2.metadataBytes from rfl, hm1],
          by rw [hl2, hl1]⟩
      · rw [if_neg h3]
        dsimp only
        obtain ⟨hw, hl⟩ := appendChunk_wf now d b h2 h
        exact ⟨hw, rfl, hl⟩

theorem drainLoopF_wf (ext : Ext) (now : Int) (reqID : String) :
    ∀ (fuel : Nat) (b : Batch) (after : List Nat), BufWF b →
      BufWF (drainLoopF ext now reqID fuel b after).2 ∧
      (drainLoopF ext now reqID fuel b after).2.metadataBytes = b.metadataBytes ∧
      metaLine (drainLoopF ext now reqID fuel b after).2 = metaLine b := by
  intro fuel
  induction fuel with
  | zero => intro b after h; exact ⟨h, rfl, rfl⟩
  | succ fuel ih =>
    intro b after h
    simp only [drainLoopF]
    obtain ⟨ob_buf, ob_meta, _, _, _, _, _, _⟩ :=
      observeTx_frame ext reqID (cutNl after).1 b
    have hb1 : BufWF (observeTx ext reqID (cutNl after).1 b) :=
      bufWF_congr b _ ob_buf ob_meta h
    have hml1 : metaLine (observeTx ext reqID (cutNl after).1 b) = metaLine b := by
      rw [metaLine, ob_buf, ob_meta]
      rfl
    obtain ⟨hw2, hm2, hl2⟩ := addData_wf ext now (cutNl after).1
      (isTransactionEvent (cutNl after).1) (observeTx ext reqID (cutNl after).1 b) hb1
    rcases hadd : addData ext now (cutNl after).1 (isTransactionEvent (cutNl after).1)
      (observeTx ext reqID (cutNl after).1 b) with ⟨r, b2⟩
    rw [hadd] at hw2 hm2 hl2
    cases r with
    | error e =>
      exact ⟨hw2, by rw [hm2, ob_meta], by rw [hl2, hml1]⟩
    | ok u =>
      dsimp only
      by_cases h2 : (cutNl after).2 = []
      · rw [if_pos h2]
        exact ⟨hw2, by rw [hm2, ob_meta], by rw [hl2, hml1]⟩
      · rw [if_neg h2]
        obtain ⟨hw3, hm3, hl3⟩ := ih b2 (cutNl after).2 hw2
        exact ⟨hw3, by rw [hm3, hm2, ob_meta], by rw [hl3, hl2, hml1]⟩

theorem addAgentData_wf (ext : Ext) (now : Int) (d : APMData) (b : Batch)
    (h : BufWF b) :
    BufWF (AddAgentData ext now d b).2 ∧
    (b.metadataBytes ≠ 0 →
      (AddAgentData ext now d b).2.metadataBytes = b.metadataBytes ∧
      metaLine (AddAgentData ext now d b).2 = metaLine b) := by
  unfold AddAgentData
  by_cases h1 : d.Data = []
  · rw [if_pos h1]
    exact ⟨h, fun _ => ⟨rfl, rfl⟩⟩
  · rw [if_neg h1]
    rcases hdec : GetUncompressedBytes ext d.Data d.ContentEncoding with e | raw
    · exact ⟨h, fun _ => ⟨rfl, rfl⟩⟩
    · dsimp only
      by_cases hfull : b.count ≥ b.maxSize
      · rw [if_pos hfull]
        exact ⟨h, fun _ => ⟨rfl, rfl⟩⟩
      · rw [if_neg hfull]
        by_cases hreq : b.currentReqID = ""
        · rw [if_pos hreq]
          exact ⟨h, fun _ => ⟨rfl, rfl⟩⟩
        · rw [if_neg hreq]
          rcases hlook : lookupInv b.invocations b.currentReqID with _ | inc
          · exact ⟨h, fun _ => ⟨rfl, rfl⟩⟩
          · dsimp only
            by_cases hm : b.metadataBytes = 0
            · rw [if_pos hm]
              have hnil : b.buf = [] := h.2.2.1 hm
              have hadopt : BufWF { b with metadataBytes := (cutNl raw).1.length, buf := b.buf ++ (cutNl raw).1 } := by
                refine ⟨?_, ?_, ?_, [], ?_⟩
                · show ((b.buf ++ (cutNl raw).1).take (cutNl raw).1.length).length =
                    (cutNl raw).1.length
                  rw [hnil, List.nil_append, List.take_length]
                · show 10 ∉ (b.buf ++ (cutNl raw).1).take (cutNl raw).1.length
                  rw [hnil, List.nil_append, List.take_length]
                  exact cutNl_fst_no10 raw
                · intro h0
                  show b.buf ++ (cutNl raw).1 = []
                  rw [hnil, List.nil_append]
                  exact List.length_eq_zero.mp h0
                · show b.buf ++ (cutNl raw).1 =
                    (b.buf ++ (cutNl raw).1).take (cutNl raw).1.length ++ nlChunks []
                  rw [hnil, List.nil_append, List.take_length]
                  simp [nlChunks]
              refine ⟨(drainLoopF_wf ext now _ ((cutNl raw).2.length + 1) _
                (cutNl raw).2 hadopt).1, fun hm0 => absurd hm hm0⟩
            · rw [if_neg hm]
              obtain ⟨hw, hmeta, hline⟩ := drainLoopF_wf ext now b.currentReqID
                ((cutNl raw).2.length + 1) b (cutNl raw).2 h
              exact ⟨hw, fun _ => ⟨hmeta, hline⟩⟩

theorem addLambdaData_wf (ext : Ext) (now : Int) (d : List Nat) (b : Batch)
    (h : BufWF b) :
    BufWF (AddLambdaData ext now d b).2 ∧
    (AddLambdaData ext now d b).2.metadataBytes = b.metadataBytes ∧
    metaLine (AddLambdaData ext now d b).2 = metaLine b := by
  unfold AddLambdaData
  by_cases hfull : b.count ≥ b.maxSize
  · rw [if_pos hfull]
    exact ⟨h, rfl, rfl⟩
  · rw [if_neg hfull]
    exact addData_wf ext now d false b h

theorem finalizeInvocation_wf (ext : Ext) (now : Int) (reqID status : String)
    (t : Int) (b : Batch) (h : BufWF b) :
    BufWF (finalizeInvocation ext now reqID status t b).2 := by
  unfold finalizeInvocation
  rcases hlook : lookupInv b.invocations reqID with _ | inc
  · exact h
  · dsimp only
    obtain ⟨hw, hmeta, _⟩ := addData_wf ext now (CreateProxyTxn ext inc status t)
      true b h
    rcases hadd : addData ext now (CreateProxyTxn ext inc status t) true b
      with ⟨r, b2⟩
    rw [hadd] at hw
    cases r with
    | error e => exact hw
    | ok u =>
      dsimp only
      exact bufWF_congr b2 _ rfl rfl hw

theorem shutdownLoop_wf (ext : Ext) (now : Int) (status : String) :
    ∀ (l : List (String × Invocation)) (b : Batch), BufWF b →
      BufWF (shutdownLoop ext now status l b).2 := by
  intro l
  induction l with
  | nil => intro b h; exact h
  | cons p rest ih =>
    intro b h
    simp only [shutdownLoop]
    have hfin := finalizeInvocation_wf ext now p.2.RequestID status
      (p.2.DeadlineMs * 1000000) b h
    rcases hf : finalizeInvocation ext now p.2.RequestID status
      (p.2.DeadlineMs * 1000000) b with ⟨r, b2⟩
    rw [hf] at hfin
    cases r with
    | error e => exact hfin
    | ok u => exact ih _ (bufWF_congr b2 _ rfl rfl hfin)

theorem reset_wf (b : Batch) (h : BufWF b) : BufWF (Reset b) := by
  obtain ⟨h1, h2, h3, chunks, h4⟩ := h
  have hml : metaLine (Reset b) = metaLine b := by
    show (b.buf.take b.metadataBytes).take b.metadataBytes = b.buf.take b.metadataBytes
    rw [List.take_take, Nat.min_self]
  refine ⟨by rw [hml]; exact h1, by rw [hml]; exact h2, ?_, [], ?_⟩
  · intro h0
    show b.buf.take b.metadataBytes = []
    have h0' : b.metadataBytes = 0 := h0
    rw [h0', List.take_zero]
  · show b.buf.take b.metadataBytes = metaLine (Reset b) ++ nlChunks []
    rw [hml]
    simp [nlChunks, metaLine]

theorem step_bufWF (ext : Ext) (b b' : Batch) (hs : Step ext b b')
    (h : BufWF b) : BufWF b' := by
  cases hs with
  | register reqID fARN dm ts => exact bufWF_congr b _ rfl rfl h
  | agentInit reqID txnID payload =>
    unfold OnAgentInit
    by_cases hp : (!isTransactionEvent payload) = true
    · rw [if_pos hp]; exact h
    · rw [if_neg hp]; exact bufWF_congr b _ rfl rfl h
  | agentData now d => exact (addAgentData_wf ext now d b h).1
  | lambdaData now d => exact (addLambdaData_wf ext now d b h).1
  | runtimeDone now reqID status t =>
    exact finalizeInvocation_wf ext now reqID status t b h
  | platformReport reqID =>
    unfold OnPlatformReport
    rcases hlook : lookupInv b.invocations reqID with _ | inc
    · exact h
    · exact bufWF_congr b _ rfl rfl h
  | initReport initMs => exact bufWF_congr b _ rfl rfl h
  | shutdown now status => exact shutdownLoop_wf ext now status b.invocations b h
  | reset => exact reset_wf b h

theorem reach_bufWF (ext : Ext) : ∀ b : Batch, Reach ext b → BufWF b := by
  intro b h
  induction h with
  | start maxSize maxAge =>
    exact ⟨rfl, by simp [metaLine, NewBatch], fun _ => rfl, [], rfl⟩
  | step hr hs ih => exact step_bufWF ext _ _ hs ih

theorem takeWhile_all_ne (l : List Nat) (h : 10 ∉ l) :
    l.takeWhile (fun c => c != 10) = l := by
  induction l with
  | nil => rfl
  | cons c cs ih =>
    have hc : c ≠ 10 := fun hc => h (hc ▸ List.mem_cons_self c cs)
    rw [List.takeWhile_cons]
    rw [if_pos (by simpa using hc), ih (fun hm => h (List.mem_cons_of_mem c hm))]

theorem takeWhile_stop (l r : List Nat) (h : 10 ∉ l) :
    (l ++ 10 :: r).takeWhile (fun c => c != 10) = l := by
  induction l with
  | nil => simp [List.takeWhile_cons]
  | cons c cs ih =>
    have hc : c ≠ 10 := fun hc => h (hc ▸ List.mem_cons_self c cs)
    rw [List.cons_append, List.takeWhile_cons]
    rw [if_pos (by simpa using hc), ih (fun hm => h (List.mem_cons_of_mem c hm))]

theorem bufWF_takeWhile (b : Batch) (h : BufWF b) :
    b.buf.takeWhile (fun c => c != 10) = metaLine b := by
  obtain ⟨h1, h2, h3, chunks, h4⟩ := h
  cases chunks with
  | nil =>
    conv_lhs => rw [h4]
    show (metaLine b ++ nlChunks []).takeWhile (fun c => c != 10) = metaLine b
    simp only [nlChunks, List.map_nil, List.flatten_nil, List.append_nil]
    exact takeWhile_all_ne _ h2
  | cons c cs =>
    conv_lhs => rw [h4]
    show (metaLine b ++ nlChunks (c :: cs)).takeWhile (fun x => x != 10) = metaLine b
    rw [nlChunks_cons]
    show (metaLine b ++ (10 :: (c ++ nlChunks cs))).takeWhile (fun x => x != 10) =
      metaLine b
    exact takeWhile_stop _ _ h2

/-- `GetUncompressedBytes` can only fail with the invalid-encoding
error. -/
theorem getUncompressedBytes_error (ext : Ext) (data : List Nat) (enc : String)
    (e : GoErr) (h : GetUncompressedBytes ext data enc = .error e) :
    e = .invalidEncoding := by
  unfold GetUncompressedBytes at h
  split_ifs at h <;> simp_all

/-- C3.  `AddLambdaData` refuses with the batch-full error and leaves the
batch unchanged whenever `count ≥ maxSize`; `AddAgentData` returns the
batch-full error only when `count ≥ maxSize` held before any event was
appended; and once a drain has begun (all pre-checks passed) every
newline-delimited event of the payload is appended — the result is
success and the count grows by the number of non-empty segments, with no
cap at `maxSize`. -/
theorem batchFull_policy :
    (∀ (ext : Ext) (now : Int) (d : List Nat) (b : Batch),
      b.count ≥ b.maxSize → AddLambdaData ext now d b = (.error .batchFull, b)) ∧
    (∀ (ext : Ext) (now : Int) (d : APMData) (b : Batch),
      (AddAgentData ext now d b).1 = .error .batchFull → b.count ≥ b.maxSize) ∧
    (∀ (ext : Ext) (now : Int) (d : APMData) (b : Batch),
      b.count < b.maxSize → b.currentReqID ≠ "" →
      lookupInv b.invocations b.currentReqID ≠ none →
      b.metadataBytes ≠ 0 → b.coldstartDurationMs < 0 →
      d.Data ≠ [] → d.ContentEncoding = "" →
      (AddAgentData ext now d b).1 = .ok () ∧
      (AddAgentData ext now d b).2.count =
        b.count +
          ((loopSegs (cutNl d.Data).2).filter (fun s => !s.isEmpty)).length) := by
  refine ⟨?_, ?_, ?_⟩
  · intro ext now d b h
    unfold AddLambdaData
    rw [if_pos h]
  · intro ext now d b h
    by_contra hfull
    push_neg at hfull
    unfold AddAgentData at h
    by_cases h1 : d.Data = []
    · rw [if_pos h1] at h; cases h
    · rw [if_neg h1] at h
      rcases hdec : GetUncompressedBytes ext d.Data d.ContentEncoding with e' | raw
      · rw [hdec] at h
        dsimp only at h
        have he : e' = .batchFull := by injection h
        have := getUncompressedBytes_error ext d.Data d.ContentEncoding e' hdec
        rw [he] at this
        cases this
      · rw [hdec] at h
        dsimp only at h
        rw [if_neg (by omega : ¬ b.count ≥ b.maxSize)] at h
        by_cases hreq : b.currentReqID = ""
        · rw [if_pos hreq] at h
          cases h
        · rw [if_neg hreq] at h
          rcases hlook : lookupInv b.invocations b.currentReqID with _ | inc
          · rw [hlook] at h
            cases h
          · rw [hlook] at h
            dsimp only at h
            unfold drainLoop at h
            have := drainLoopF_error ext now _ _ _ _ _ h
            cases this
  · intro ext now d b hlt hreq hlook hm hcs h1 henc
    have hdec : GetUncompressedBytes ext d.Data d.ContentEncoding = .ok d.Data := by
      rw [henc]
      unfold GetUncompressedBytes
      rw [if_pos rfl]
    unfold AddAgentData
    rw [if_neg h1, hdec]
    dsimp only
    rw [if_neg (by omega : ¬ b.count ≥ b.maxSize), if_neg hreq]
    rcases hli : lookupInv b.invocations b.currentReqID with _ | inc
    · exact absurd hli hlook
    · dsimp only
      rw [if_neg hm]
      obtain ⟨hc1, hc2, _, _, _⟩ := drainLoopF_complete ext now b.currentReqID
        ((cutNl d.Data).2.length + 1) (cutNl d.Data).2 b (by omega) hm hcs
      exact ⟨hc1, hc2⟩

/-- Witness for C3: with `maxSize = 1` a full batch refuses a lambda
entry, while an agent drain of three events runs to completion past the
limit. -/
theorem batchFull_policy_witness :
    AddLambdaData toyExt 0 [7] { c3batch with count := 1 } =
      (.error .batchFull, { c3batch with count := 1 }) ∧
    (AddAgentData toyExt 0 ⟨bytesOf "x\ne1\ne2\ne3", ""⟩ c3batch).1 = .ok () ∧
    (AddAgentData toyExt 0 ⟨bytesOf "x\ne1\ne2\ne3", ""⟩ c3batch).2.count = 3 :=
  have H2 := batchFull_policy.2.2 toyExt 0 ⟨bytesOf "x\ne1\ne2\ne3", ""⟩ c3batch
    (by decide) (by decide) (by decide) (by decide) (by decide) (by decide) rfl
  ⟨batchFull_policy.1 toyExt 0 [7] { c3batch with count := 1 } (by decide),
   H2.1, by rw [H2.2]; rfl⟩

/-- C2.  In every reachable state the buffer is the cached metadata line
followed by `"\n" ++ event` chunks, so the bytes up to the first newline
are always the first metadata line ever adopted; once metadata is cached,
`AddAgentData` and `AddLambdaData` never change it (neither its size nor
its bytes); and the first newline-delimited segment of a subsequent agent
payload is silently dropped — the call's outcome and final state do not
depend on it at all. -/
theorem metadata_buffer_invariant :
    (∀ (ext : Ext) (b : Batch), Reach ext b →
      BufWF b ∧ b.buf.takeWhile (fun c => c != 10) = metaLine b) ∧
    (∀ (ext : Ext) (now : Int) (d : APMData) (b : Batch), BufWF b →
      b.metadataBytes ≠ 0 →
      (AddAgentData ext now d b).2.metadataBytes = b.metadataBytes ∧
      metaLine (AddAgentData ext now d b).2 = metaLine b) ∧
    (∀ (ext : Ext) (now : Int) (d : List Nat) (b : Batch), BufWF b →
      b.metadataBytes ≠ 0 →
      (AddLambdaData ext now d b).2.metadataBytes = b.metadataBytes ∧
      metaLine (AddLambdaData ext now d b).2 = metaLine b) ∧
    (∀ (ext : Ext) (now : Int) (b : Batch) (m1 m2 rest : List Nat),
      b.metadataBytes ≠ 0 → 10 ∉ m1 → 10 ∉ m2 →
      AddAgentData ext now { Data := m1 ++ 10 :: rest, ContentEncoding := "" } b =
        AddAgentData ext now { Data := m2 ++ 10 :: rest, ContentEncoding := "" } b) := by
  refine ⟨?_, ?_, ?_, ?_⟩
  · intro ext b hr
    have hw := reach_bufWF ext b hr
    exact ⟨hw, bufWF_takeWhile b hw⟩
  · intro ext now d b hw hm
    exact (addAgentData_wf ext now d b hw).2 hm
  · intro ext now d b hw hm
    obtain ⟨_, h2, h3⟩ := addLambdaData_wf ext now d b hw
    exact ⟨h2, h3⟩
  · intro ext now b m1 m2 rest hm hn1 hn2
    have hne1 : (m1 ++ 10 :: rest) ≠ [] := by
      intro hcontra
      rcases List.append_eq_nil.mp hcontra with ⟨_, h2⟩
      cases h2
    have hne2 : (m2 ++ 10 :: rest) ≠ [] := by
      intro hcontra
      rcases List.append_eq_nil.mp hcontra with ⟨_, h2⟩
      cases h2
    have hg1 : GetUncompressedBytes ext (m1 ++ 10 :: rest) "" =
        .ok (m1 ++ 10 :: rest) := by
      unfold GetUncompressedBytes
      rw [if_pos rfl]
    have hg2 : GetUncompressedBytes ext (m2 ++ 10 :: rest) "" =
        .ok (m2 ++ 10 :: rest) := by
      unfold GetUncompressedBytes
      rw [if_pos rfl]
    unfold AddAgentData
    rw [if_neg hne1, if_neg hne2, hg1, hg2]
    dsimp only
    rw [cutNl_of_append m1 rest hn1, cutNl_of_append m2 rest hn2]
    dsimp only
    simp only [if_neg hm]

/-- Witness for C2 at concrete states: a reachable batch satisfies the
buffer shape, a lambda append preserves the metadata line, and two agent
payloads differing only in their first (metadata) segment produce
identical results. -/
theorem metadata_buffer_invariant_witness :
    (BufWF c6batch ∧ c6batch.buf.takeWhile (fun c => c != 10) = metaLine c6batch) ∧
    ((AddLambdaData toyExt 0 [55] c3batch).2.metadataBytes = c3batch.metadataBytes ∧
      metaLine (AddLambdaData toyExt 0 [55] c3batch).2 = metaLine c3batch) ∧
    AddAgentData toyExt 0 { Data := [77] ++ 10 :: [88], ContentEncoding := "" } c3batch =
      AddAgentData toyExt 0 { Data := [99] ++ 10 :: [88], ContentEncoding := "" } c3batch :=
  have hwf3 : BufWF c3batch :=
    ⟨by decide, by decide, by decide, [], by decide⟩
  have hreach : Reach toyExt c6batch :=
    Reach.step (Reach.step (Reach.start 10 0)
      (Step.register (NewBatch 10 0) "A" "arn" 5 0))
      (Step.agentData (RegisterInvocation (NewBatch 10 0) "A" "arn" 5 0) 0
        ⟨metaLineBytes, ""⟩)
  ⟨metadata_buffer_invariant.1 toyExt c6batch hreach,
   metadata_buffer_invariant.2.2.1 toyExt 0 [55] c3batch hwf3 (by decide),
   metadata_buffer_invariant.2.2.2 toyExt 0 c3batch [77] [99] [88] (by decide)
     (by decide) (by decide)⟩

/-- C6 counterexample: a reachable batch with one live registered
invocation that lacks an observed transaction (and has an empty agent
payload).  `OnShutdown` succeeds and empties the registry, but appends no
synthetic transaction at all — the buffer and the count are unchanged —
contradicting the claim that the batch gains one synthetic transaction
per previously-live invocation lacking an observed one. -/
theorem shutdown_per_invocation_cex :
    Reach toyExt c6batch ∧
    c6batch.invocations.length = 1 ∧
    (∀ p ∈ c6batch.invocations, p.2.TransactionObserved = false) ∧
    (OnShutdown toyExt 0 "failure" c6batch).1 = .ok () ∧
    (OnShutdown toyExt 0 "failure" c6batch).2.invocations = [] ∧
    (OnShutdown toyExt 0 "failure" c6batch).2.buf = c6batch.buf ∧
    (OnShutdown toyExt 0 "failure" c6batch).2.count = c6batch.count := by
  refine ⟨?_, by decide, by decide, by rfl, by decide, by decide, by decide⟩
  exact Reach.step (Reach.step (Reach.start 10 0)
    (Step.register (NewBatch 10 0) "A" "arn" 5 0))
    (Step.agentData (RegisterInvocation (NewBatch 10 0) "A" "arn" 5 0) 0
      ⟨metaLineBytes, ""⟩)

/-- C6 (amended).  When every cached record carries its own key as
`RequestID` (always true once registered), metadata is cached and no
cold-start credit is pending, `OnShutdown` succeeds: every live
invocation is finalized with end time `deadline_ms · 10⁶` ns, the
registry is emptied, and the batch gains one synthetic transaction per
previously-live invocation that lacked an observed transaction **and had
a non-empty agent payload**; and on any failing run nothing is ever put
back — every key still present afterwards was present before. -/
theorem shutdown_spec :
    (∀ (ext : Ext), ExtLaws ext → ∀ (now : Int) (status : String) (b : Batch),
      (∀ p ∈ b.invocations, p.2.RequestID = p.1) →
      b.metadataBytes ≠ 0 → b.coldstartDurationMs < 0 →
      (OnShutdown ext now status b).1 = .ok () ∧
      (OnShutdown ext now status b).2.invocations = [] ∧
      BatchSize (OnShutdown ext now status b).2 = 0 ∧
      (OnShutdown ext now status b).2.buf =
        b.buf ++ nlChunks ((b.invocations.filter (fun p => needsProxy p.2)).map
          (fun p => CreateProxyTxn ext p.2 status (p.2.DeadlineMs * 1000000))) ∧
      (OnShutdown ext now status b).2.count =
        b.count + (b.invocations.filter (fun p => needsProxy p.2)).length) ∧
    (∀ (ext : Ext) (now : Int) (status : String) (b : Batch) (k : String)
      (i : Invocation),
      lookupInv (OnShutdown ext now status b).2.invocations k = some i →
      ∃ i0, lookupInv b.invocations k = some i0) := by
  constructor
  · intro ext hl now status b hreq hm hcs
    obtain ⟨h1, h2, h3, h4⟩ :=
      shutdownLoop_ok ext hl now status b.invocations b rfl hreq hm hcs
    refine ⟨h1, h2, ?_, h3, h4⟩
    show (shutdownLoop ext now status b.invocations b).2.invocations.length = 0
    rw [h2]
    rfl
  · intro ext now status b k i h
    exact shutdownLoop_no_restore ext now status b.invocations b k i h

/-- Witness for the amended C6: shutting down `c5batch` (one live
invocation with a stored, unobserved agent payload) empties the registry
and appends exactly one synthetic transaction. -/
theorem shutdown_spec_witness :
    (OnShutdown toyExt 0 "timeout" c5batch).1 = .ok () ∧
    (OnShutdown toyExt 0 "timeout" c5batch).2.invocations = [] ∧
    (OnShutdown toyExt 0 "timeout" c5batch).2.count = c5batch.count + 1 :=
  have H := shutdown_spec.1 toyExt toyExt_laws 0 "timeout" c5batch
    (by decide) (by decide) (by decide)
  ⟨H.1, H.2.1, by rw [H.2.2.2.2]; rfl⟩

/-! ### The transaction-observed invariant (C9) -/

theorem txnObsInv_congr (b b' : Batch) (h : b'.invocations = b.invocations)
    (hi : TxnObsInv b) : TxnObsInv b' := by
  intro p hp
  rw [h] at hp
  exact hi p hp

theorem observeTx_txnObs (ext : Ext) (reqID : String) (d : List Nat) (b : Batch)
    (h : TxnObsInv b) : TxnObsInv (observeTx ext reqID d b) := by
  unfold observeTx
  rcases hlook : lookupInv b.invocations reqID with _ | inc
  · exact h
  · dsimp only
    split_ifs with h1 h2
    · intro p hp hobs
      rcases mem_insertInv _ _ _ p hp with rfl | hp2
      · simp only [Bool.and_eq_true, decide_eq_true_eq] at h2
        show inc.TransactionID ≠ ""
        rw [h2.2]
        exact h2.1
      · exact h p hp2 hobs
    · exact h
    · exact h

theorem addData_txnObs (ext : Ext) (now : Int) (d : List Nat) (isTx : Bool)
    (b : Batch) (h : TxnObsInv b) : TxnObsInv (addData ext now d isTx b).2 :=
  txnObsInv_congr b _ (addData_frame ext now d isTx b).1 h

theorem drainLoopF_txnObs (ext : Ext) (now : Int) (reqID : String) :
    ∀ (fuel : Nat) (b : Batch) (after : List Nat), TxnObsInv b →
      TxnObsInv (drainLoopF ext now reqID fuel b after).2 := by
  intro fuel
  induction fuel with
  | zero => intro b after h; exact h
  | succ fuel ih =>
    intro b after h
    simp only [drainLoopF]
    have h1 := observeTx_txnObs ext reqID (cutNl after).1 b h
    have h2 := addData_txnObs ext now (cutNl after).1
      (isTransactionEvent (cutNl after).1) _ h1
    rcases hadd : addData ext now (cutNl after).1
      (isTransactionEvent (cutNl after).1)
      (observeTx ext reqID (cutNl after).1 b) with ⟨r, b2⟩
    rw [hadd] at h2
    cases r with
    | error e => exact h2
    | ok u =>
      dsimp only
      by_cases hrest : (cutNl after).2 = []
      · rw [if_pos hrest]
        exact h2
      · rw [if_neg hrest]
        exact ih b2 (cutNl after).2 h2

theorem addAgentData_txnObs (ext : Ext) (now : Int) (d : APMData) (b : Batch)
    (h : TxnObsInv b) : TxnObsInv (AddAgentData ext now d b).2 := by
  unfold AddAgentData
  by_cases h1 : d.Data = []
  · rw [if_pos h1]; exact h
  · rw [if_neg h1]
    rcases hdec : GetUncompressedBytes ext d.Data d.ContentEncoding with e | raw
    · exact h
    · dsimp only
      by_cases hfull : b.count ≥ b.maxSize
      · rw [if_pos hfull]; exact h
      · rw [if_neg hfull]
        by_cases hreq : b.currentReqID = ""
        · rw [if_pos hreq]; exact h
        · rw [if_neg hreq]
          rcases hlook : lookupInv b.invocations b.currentReqID with _ | inc
          · exact h
          · dsimp only
            by_cases hm : b.metadataBytes = 0
            · rw [if_pos hm]
              exact drainLoopF_txnObs ext now _ _ _ (cutNl raw).2
                (txnObsInv_congr b _ rfl h)
            · rw [if_neg hm]
              exact drainLoopF_txnObs ext now _ _ _ (cutNl raw).2 h

theorem finalize_txnObs (ext : Ext) (now : Int) (reqID status : String) (t : Int)
    (b : Batch) (h : TxnObsInv b) :
    TxnObsInv (finalizeInvocation ext now reqID status t b).2 := by
  unfold finalizeInvocation
  rcases hlook : lookupInv b.invocations reqID with _ | inc
  · exact h
  · dsimp only
    have hb2 := addData_txnObs ext now (CreateProxyTxn ext inc status t) true b h
    rcases hadd : addData ext now (CreateProxyTxn ext inc status t) true b
      with ⟨r, b2⟩
    rw [hadd] at hb2
    cases r with
    | error e => exact hb2
    | ok u =>
      intro p hp hobs
      rcases mem_insertInv _ _ _ p hp with rfl | hp2
      · have hmem := lookupInv_mem _ _ _ hlook
        exact h (reqID, inc) hmem hobs
      · exact hb2 p hp2 hobs

theorem shutdownLoop_txnObs (ext : Ext) (now : Int) (status : String) :
    ∀ (l : List (String × Invocation)) (b : Batch), TxnObsInv b →
      TxnObsInv (shutdownLoop ext now status l b).2 := by
  intro l
  induction l with
  | nil => intro b h; exact h
  | cons p rest ih =>
    intro b h
    simp only [shutdownLoop]
    have h1 := finalize_txnObs ext now p.2.RequestID status
      (p.2.DeadlineMs * 1000000) b h
    rcases hf : finalizeInvocation ext now p.2.RequestID status
      (p.2.DeadlineMs * 1000000) b with ⟨r, b2⟩
    rw [hf] at h1
    cases r with
    | error e => exact h1
    | ok u =>
      dsimp only
      refine ih _ ?_
      intro q hq hobs
      exact h1 q (mem_eraseInv _ _ q hq) hobs

theorem register_txnObs (b : Batch) (reqID fARN : String) (dm ts : Int)
    (h : TxnObsInv b) : TxnObsInv (RegisterInvocation b reqID fARN dm ts) := by
  unfold RegisterInvocation
  rcases hlook : lookupInv b.invocations reqID with _ | i0
  · intro p hp hobs
    dsimp only at hp
    rcases mem_insertInv _ _ _ p hp with rfl | hp2
    · simp at hobs
    · exact h p hp2 hobs
  · intro p hp hobs
    dsimp only at hp
    rcases mem_insertInv _ _ _ p hp with rfl | hp2
    · dsimp only [Option.getD] at hobs ⊢
      exact h (reqID, i0) (lookupInv_mem _ _ _ hlook) hobs
    · exact h p hp2 hobs

theorem agentInit_txnObs (b : Batch) (reqID txnID : String) (payload : List Nat)
    (hid : txnID ≠ "") (h : TxnObsInv b) :
    TxnObsInv (OnAgentInit b reqID txnID payload).2 := by
  unfold OnAgentInit
  by_cases hp0 : (!isTransactionEvent payload) = true
  · rw [if_pos hp0]; exact h
  · rw [if_neg hp0]
    intro p hp hobs
    rcases mem_insertInv _ _ _ p hp with rfl | hp2
    · exact hid
    · exact h p hp2 hobs

theorem stepR_txnObs (ext : Ext) (b b' : Batch) (hs : StepR ext b b')
    (h : TxnObsInv b) : TxnObsInv b' := by
  cases hs with
  | register reqID fARN dm ts => exact register_txnObs b reqID fARN dm ts h
  | agentInit reqID txnID payload hid =>
    exact agentInit_txnObs b reqID txnID payload hid h
  | agentData now d => exact addAgentData_txnObs ext now d b h
  | lambdaData now d =>
    unfold AddLambdaData
    by_cases hfull : b.count ≥ b.maxSize
    · rw [if_pos hfull]; exact h
    · rw [if_neg hfull]; exact addData_txnObs ext now d false b h
  | runtimeDone now reqID status t => exact finalize_txnObs ext now reqID status t b h
  | platformReport reqID =>
    unfold OnPlatformReport
    rcases hlook : lookupInv b.invocations reqID with _ | inc
    · exact h
    · intro p hp hobs
      exact h p (mem_eraseInv _ _ p hp) hobs
  | initReport initMs => exact txnObsInv_congr b _ rfl h
  | shutdown now status => exact shutdownLoop_txnObs ext now status b.invocations b h
  | reset => exact txnObsInv_congr b _ rfl h

/-- C9 counterexample: from a new batch, register `A`, let the agent
announce transaction `t1` and observe it via an agent payload, then call
`OnAgentInit` again with an **empty** transaction id.  The cached record
then has `TransactionObserved = true` with `TransactionID = ""`, so the
claimed invariant fails on a reachable state. -/
theorem txnObs_invariant_cex : Reach toyExt c9bad ∧ ¬ TxnObsInv c9bad := by
  constructor
  · exact Reach.step (Reach.step (Reach.step (Reach.step (Reach.start 10 0)
      (Step.register (NewBatch 10 0) "A" "arn" 0 0))
      (Step.agentInit (RegisterInvocation (NewBatch 10 0) "A" "arn" 0 0)
        "A" "t1" txInitPayload))
      (Step.agentData ((OnAgentInit (RegisterInvocation (NewBatch 10 0)
        "A" "arn" 0 0) "A" "t1" txInitPayload).2) 0
        ⟨metaLineBytes ++ 10 :: txEvtT1, ""⟩))
      (Step.agentInit ((AddAgentData toyExt 0 ⟨metaLineBytes ++ 10 :: txEvtT1, ""⟩
        ((OnAgentInit (RegisterInvocation (NewBatch 10 0) "A" "arn" 0 0)
          "A" "t1" txInitPayload).2)).2) "A" "" txInitPayload)
  · intro hinv
    have hmem : ("A", c9inc) ∈ c9bad.invocations := by decide
    exact (hinv _ hmem (by decide)) rfl

/-- C9 (amended).  Under every sequence of operations in which
`OnAgentInit` is only ever called with a non-empty transaction id, every
cached invocation record satisfies: an observed transaction implies a
non-empty announced transaction id. -/
theorem txnObs_invariant (ext : Ext) (b : Batch) (h : ReachR ext b) :
    TxnObsInv b := by
  induction h with
  | start maxSize maxAge => intro p hp hobs; cases hp
  | step hr hs ih => exact stepR_txnObs ext _ _ hs ih

/-- Witness for the amended C9 at a concrete restrictedly-reachable
state. -/
theorem txnObs_invariant_witness : TxnObsInv c5batch :=
  txnObs_invariant toyExt c5batch
    (ReachR.step (ReachR.step (ReachR.step (ReachR.start 10 0)
      (StepR.register (NewBatch 10 0) "A" "arn" 5 0))
      (StepR.agentData (RegisterInvocation (NewBatch 10 0) "A" "arn" 5 0) 0
        ⟨metaLineBytes, ""⟩))
      (StepR.agentInit ((AddAgentData toyExt 0 ⟨metaLineBytes, ""⟩
        (RegisterInvocation (NewBatch 10 0) "A" "arn" 5 0)).2)
        "A" "t1" txInitPayload (by decide)))

/-- Witness for C5 at a concrete batch: the proxy transaction is appended
and the count grows by one. -/
theorem runtimeDone_proxy_witness :
    (OnLambdaLogRuntimeDone toyExt 0 "A" "failure" 7 c5batch).1 = .ok () ∧
    (OnLambdaLogRuntimeDone toyExt 0 "A" "failure" 7 c5batch).2.count =
      c5batch.count + 1 :=
  have H := (runtimeDone_proxy toyExt toyExt_laws 0 7 c5batch "A" "failure").1
    c5inc (by decide) (by decide) (by decide) (by decide) (by decide)
  ⟨H.1, H.2.2.1⟩

end Apm
